import Mathlib

/-!
Verification development for the codpiece streaming CSS tokenizer.

This file gives a shallow embedding of the CSS lexer class (the variant that
stores tokens in flat parallel buffers; referred to below as CSSParser, after
the class name in the source).  The embedding follows the source function by
function:

* Each lexical state method (named with a dollar prefix in the source, for
  example the method named dollar-ident) becomes a Lean definition named with
  an s prefix (sIdent and so on); the underscore-prefixed helper methods keep
  their names without the underscore (fail, addHashToken, commitNumber, ...).
* The mutable instance fields become the fields of the structure M.  Lengths
  that in the source always equal the number of elements written so far are
  represented implicitly as list lengths; sourceLength is kept explicit as an
  integer because the source mutates it independently of writes (offsets for
  reconsumption can even drive it negative).
* The source stores the current lexical state as a bound method; here it is
  defunctionalized into the inductive type LexState with one constructor per
  state method, dispatched by lexCP.
* Typed-array stores wrap their values (Uint32Array wraps modulo 2 ^ 32,
  Int32Array applies the ToInt32 conversion); writes at negative indices are
  dropped, exactly as JavaScript drops them for typed arrays.  Buffer
  capacity (and the expandBuffers doubling, which only copies contents) is
  abstracted as unbounded storage: capacity growth is content-preserving and
  none of the verified properties concern capacity.
* The host IEEE-754 decimal parser invoked by commitNumber
  (Number.parseFloat over the source slice) is abstracted as an explicit
  parameter pf taking the slice (a list of code points) to a rational; all
  machine-level theorems are uniform in pf.  A concrete exact decimal parser
  decParse is provided for closed computations; on the concrete inputs used
  it agrees with the IEEE-754 value (those values are exactly representable).
* The recursion created in the source by state methods re-invoking the
  current lex method (reconsumption of stored code points) is made structural
  with a fuel argument; exhausted fuel sets the fuelOut flag and leaves the
  machine otherwise unchanged.  All universal theorems hold for every fuel.
* Two instrumentation-only fields (ghostRefeedMax, ghostOtherRefeedMax)
  record, at each reconsumption site, how many stored code points were re-fed
  to the state machine; they influence nothing else.  They exist to express
  the bounded-reconsumption property.
-/

namespace CSSParser

/-- End-of-input sentinel fed to states exactly once (EOF_SENTINEL). -/
def EOF_SENTINEL : Nat := 0x110000

def AT_KEYWORD_TOKEN        : Nat := 0
def BAD_STRING_TOKEN        : Nat := 1
def BAD_URL_TOKEN           : Nat := 2
def CDC_TOKEN               : Nat := 3
def CDO_TOKEN               : Nat := 4
def COLON_TOKEN             : Nat := 5
def COMMA_TOKEN             : Nat := 6
def DELIM_TOKEN             : Nat := 7
def DIMENSION_TOKEN         : Nat := 8
def FUNCTION_TOKEN          : Nat := 9
def HASH_TOKEN              : Nat := 10
def IDENT_TOKEN             : Nat := 11
def LEFT_BRACE_TOKEN        : Nat := 12
def LEFT_BRACKET_TOKEN      : Nat := 13
def LEFT_PARENTHESIS_TOKEN  : Nat := 14
def NUMBER_TOKEN            : Nat := 15
def PERCENTAGE_TOKEN        : Nat := 16
def RIGHT_BRACE_TOKEN       : Nat := 17
def RIGHT_BRACKET_TOKEN     : Nat := 18
def RIGHT_PARENTHESIS_TOKEN : Nat := 19
def SEMICOLON_TOKEN         : Nat := 20
def STRING_TOKEN            : Nat := 21
def URL_TOKEN               : Nat := 22
def WHITESPACE_TOKEN        : Nat := 23
def COMMENT_TOKEN           : Nat := 24

/-- isHex: the source enumerates, in a switch, exactly the code points
0x30-0x39, 0x41-0x46 and 0x61-0x66. -/
def isHex (cp : Nat) : Bool :=
  (0x30 ≤ cp && cp ≤ 0x39) || (0x41 ≤ cp && cp ≤ 0x46) ||
    (0x61 ≤ cp && cp ≤ 0x66)

/-- isNameContinue: the switch enumerates 0x2D, 0x30-0x39, 0x41-0x5A, 0x5F
and 0x61-0x7A, with default returning cp greater or equal 0x80. -/
def isNameContinue (cp : Nat) : Bool :=
  cp = 0x2D || (0x30 ≤ cp && cp ≤ 0x39) || (0x41 ≤ cp && cp ≤ 0x5A) ||
    cp = 0x5F || (0x61 ≤ cp && cp ≤ 0x7A) || 0x80 ≤ cp

/-- isNameStart: the switch enumerates 0x41-0x5A, 0x5F and 0x61-0x7A, with
default returning cp greater or equal 0x80. -/
def isNameStart (cp : Nat) : Bool :=
  (0x41 ≤ cp && cp ≤ 0x5A) || cp = 0x5F || (0x61 ≤ cp && cp ≤ 0x7A) ||
    0x80 ≤ cp

/-- Digit case label 0x30-0x39, used by the switch statements of the number
states. -/
def isDigit (cp : Nat) : Bool := 0x30 ≤ cp && cp ≤ 0x39

/-- normalizeEscapeCP, translated clause for clause from the source. -/
def normalizeEscapeCP (cp : Nat) : Nat :=
  if cp = 0 ∨ cp > 0x10FFFF then 0xFFFD
  else if cp > 0xDFFF then cp
  else if cp > 0xD7FF then 0xFFFD
  else cp

/-- toHexValue: bit trickery from the source, valid on hex-digit code
points.  The source reads: cp AND 0b1000000 (then) cp + 0x09 AND 0b1111
(else) cp XOR 0b110000. -/
def toHexValue (cp : Nat) : Nat :=
  if cp &&& 0x40 ≠ 0 then (cp + 0x09) &&& 0xF else cp ^^^ 0x30

/-- One constructor per lexical state method of the source class. -/
inductive LexState where
  | atKeyword | atKeywordEscape | badURL | badURLEscape | cdcOrIdent
  | comment | commentAfterAsterisk
  | delimOrAtKeyword | delimOrAtKeywordAfterBackslash
  | delimOrAtKeywordAfterHyphen | delimOrAtKeywordAfterHyphenBackslash
  | delimOrCDO | delimOrCDOAfterExclamationPoint
  | delimOrCDOAfterExclamationPointHyphen
  | delimOrComment | delimOrFractionalNumber | delimOrHash
  | delimOrHashAfterBackslash | delimOrIdentAfterHyphenBackslash
  | delimOrIdentInitialEscape
  | delimOrNegativeSignedNumberOrCDCOrIdent
  | delimOrNegativeSignedNumberFractional
  | delimOrPositiveSignedNumber | delimOrPositiveSignedNumberFractional
  | escape | escapeHex | functionOrURL | hash | hashAfterHyphen
  | hashAfterHyphenBackslash | hashEscape | ident | identEscape | input
  | number | numberExponent | numberInDecimal
  | numberPossibleExponentOrUnit | numberPossibleExponentSignedOrUnitPlus
  | numberPossibleExponentSignedOrUnitHyphen | numberPossibleFraction
  | numberPossibleUnitBackslash | numberPossibleUnitHyphen
  | numberPossibleUnitHyphenBackslash | numberUnit | numberUnitEscape
  | string | stringEscape | url | urlAfterWhitespace | urlEscape
  | whitespace
  deriving DecidableEq, Repr

/-- The data the source packs into the Error object built by fail: the spec
module and fragment of the diagnostic URL, the token-start position read
from the positions buffer, and the disambiguation position (current line and
column).  The formatted message string (snippet and pointer line) is
presentation only and is not modeled. -/
structure ErrRec where
  module  : String
  hash    : String
  line    : Nat
  column  : Nat
  dline   : Nat
  dcolumn : Nat
  deriving DecidableEq, Repr

/-- The mutable instance state of the CSSParser class.  Field names follow
the source without the underscore prefix.  The three fields after
urlWhitespaceCount are instrumentation only (see the file header). -/
structure M where
  column              : Nat
  error               : Option ErrRec
  errors              : List ErrRec
  escapeCount         : Nat
  escapeCP            : Nat
  floatValues         : List ℚ
  hashTokenIsID       : Bool
  intValues           : List Int
  lastCPWasCR         : Bool
  lex                 : LexState
  lexAfterEscape      : LexState
  line                : Nat
  numericTokenIsFloat : Bool
  numericTokenValue   : ℚ
  positions           : List Nat
  recover             : Bool
  source              : Int → Nat
  sourceLength        : Int
  stringDelimiter     : Nat
  stringValues        : List Nat
  stringValuesStart   : Nat
  tokens              : List Nat
  urlWhitespaceCount  : Nat
  ghostRefeedMax      : Nat
  ghostOtherRefeedMax : Nat
  fuelOut             : Bool

/-- Uint32Array value wrap for a natural number store. -/
def u32 (n : Nat) : Nat := n % 4294967296

/-- Uint32Array value wrap for an integer store (ToUint32). -/
def u32ofInt (i : Int) : Nat := (i.emod 4294967296).toNat

/-- ToInt32 as applied by an Int32Array store: truncate the rational toward
zero (num divided by den in integer T-division) and wrap into the signed
32-bit range. -/
def toInt32 (q : ℚ) : Int :=
  let t : Int := q.num / (q.den : Int)
  let u := t.emod 4294967296
  if u < 2147483648 then u else u - 4294967296

/-- stringValue: push one code point onto the string-value buffer. -/
def stringValue (m : M) (cp : Nat) : M :=
  { m with stringValues := m.stringValues ++ [u32 cp] }

/-- Truncating assignment of stringValuesLength back to stringValuesStart
(the idiom used to discard an accumulated string value). -/
def svTruncate (m : M) : M :=
  { m with stringValues := m.stringValues.take m.stringValuesStart }

/-- Start index of the token currently being built: the end slot of the last
completed token, or zero (the expression computed by fail and
commitNumber). -/
def badTokenStart (m : M) : Nat :=
  if m.tokens.length = 0 then 0 else m.tokens.getD (m.tokens.length - 3) 0

/-- The data fail packs into the Error it constructs. -/
def errRecOf (m : M) (module hash : String) : ErrRec :=
  let pIndex := 2 * badTokenStart m
  { module := module, hash := hash,
    line := m.positions.getD pIndex 0,
    column := m.positions.getD (pIndex + 1) 0,
    dline := m.line, dcolumn := m.column }

/-- fail: in recover mode push the error and answer false; otherwise set the
error field and answer true. -/
def fail (m : M) (module hash : String) : M × Bool :=
  let e := errRecOf m module hash
  if m.recover then ({ m with errors := m.errors ++ [e] }, false)
  else ({ m with error := some e }, true)

/-- Source slice as read by the subarray call of commitNumber (for the
in-range reads the tokenizer performs this is exactly the stored content). -/
def sliceSource (m : M) (start stop : Int) : List Nat :=
  (List.range (stop - start).toNat).map (fun k => m.source (start + k))

/-- commitNumber: parse the source slice of the current numeric token with
the host decimal parser pf and latch the value. -/
def commitNumber (pf : List Nat → ℚ) (m : M) (offset : Nat) : M :=
  let v := pf (sliceSource m (badTokenStart m) (m.sourceLength - offset))
  { m with numericTokenValue := v }

/-- Instrumentation: record that a reconsumption site re-fed n stored code
points (ghost fields only; see the file header).  Exempt marks the one
FUNCTION-emission site in the URL disambiguation state. -/
def bumpRefeed (exempt : Bool) (n : Nat) (m : M) : M :=
  { m with ghostRefeedMax := max m.ghostRefeedMax n,
           ghostOtherRefeedMax :=
             if exempt then m.ghostOtherRefeedMax
             else max m.ghostOtherRefeedMax n }

/-- Write of one code point at the current sourceLength index (a typed-array
store: dropped when the index is negative, value wrapped). -/
def setSource (m : M) (cp : Nat) : Int → Nat :=
  if m.sourceLength < 0 then m.source
  else fun j => if j = m.sourceLength then u32 cp else m.source j

/-- Re-feed n stored code points: each step reads the code point at
sourceLength, increments sourceLength, and hands the code point to go (the
idiom lex(source(sourceLength++))). -/
def refeedN (go : M → Nat → M) : Nat → M → M
  | 0, m => m
  | k + 1, m =>
      refeedN go k
        (go { m with sourceLength := m.sourceLength + 1 }
          (m.source m.sourceLength))

/-- The while loop of addStringValueTokenWithOffset: feed up to k stored
code points, stopping when an error has been recorded; also counts how many
were actually fed. -/
def refeedLoop (go : M → Nat → M) : Nat → M → M × Nat
  | 0, m => (m, 0)
  | k + 1, m =>
      if m.error ≠ none then (m, 0)
      else
        let m2 := go { m with sourceLength := m.sourceLength + 1 }
          (m.source m.sourceLength)
        let r := refeedLoop go k m2
        (r.1, r.2 + 1)

/-- addDelimTokenWithoutOffset. -/
def addDelimTokenWithoutOffset (m : M) (cp : Nat) : M :=
  { m with lex := .input,
           tokens := m.tokens ++
             [DELIM_TOKEN, u32ofInt m.sourceLength, u32 cp, 0] }

/-- Number of code points the switch at the end of addDelimTokenWithOffset
and addNumberToken re-feeds: the cases 3, 2, 1 fall through, anything else
feeds nothing. -/
def refeedSwitchCount (offset : Nat) : Nat :=
  if offset = 3 then 3 else if offset = 2 then 2
  else if offset = 1 then 1 else 0

/-- addDelimTokenWithOffset. -/
def addDelimTokenWithOffset (go : M → Nat → M) (m : M) (cp offset : Nat) :
    M :=
  let m1 := { m with sourceLength := m.sourceLength - offset }
  let m2 := addDelimTokenWithoutOffset m1 cp
  let n := refeedSwitchCount offset
  refeedN go n (bumpRefeed false n m2)

/-- addGeneralTokenWithoutOffset (token with both special slots unused; the
skipped slots of the flat token array hold zero). -/
def addGeneralTokenWithoutOffset (m : M) (tokenType : Nat) : M :=
  { m with lex := .input,
           tokens := m.tokens ++ [tokenType, u32ofInt m.sourceLength, 0, 0] }

/-- The shared tail of addHashToken and addDimensionToken: re-feed the code
point one or two slots back (for offset two the last stored code point is
not re-fed; sourceLength is restored after the call). -/
def refeedBack (go : M → Nat → M) (m : M) (offset : Nat) : M :=
  if offset = 1 then go (bumpRefeed false 1 m) (m.source (m.sourceLength - 1))
  else
    let m1 := bumpRefeed false 1 { m with sourceLength := m.sourceLength - 1 }
    let m2 := go m1 (m1.source (m1.sourceLength - 1))
    { m2 with sourceLength := m2.sourceLength + 1 }

/-- addHashToken: special slot one packs the string-value start index
shifted left once with the ID flag in the low bit. -/
def addHashToken (go : M → Nat → M) (m : M) (offset : Nat) : M :=
  let sv1 := u32 (2 * m.stringValuesStart + (if m.hashTokenIsID then 1 else 0))
  let m1 :=
    { m with lex := .input,
             tokens := m.tokens ++
               [HASH_TOKEN, u32ofInt (m.sourceLength - offset), sv1,
                 m.stringValues.length],
             stringValuesStart := m.stringValues.length,
             hashTokenIsID := false }
  refeedBack go m1 offset

/-- The buffer-routing core of addNumberToken: the number value goes to the
float buffer when the float flag is set (resetting the flag), otherwise
through ToInt32 to the integer buffer; the token records the routing flag
and the buffer index. -/
def addNumberTokenCore (m : M) (offset : Nat) : M :=
  let L := m.sourceLength - offset
  let m1 := { m with lex := .input, sourceLength := L }
  if m1.numericTokenIsFloat then
    { m1 with numericTokenIsFloat := false,
              floatValues := m1.floatValues ++ [m1.numericTokenValue],
              tokens := m1.tokens ++
                [NUMBER_TOKEN, u32ofInt L, 1, m1.floatValues.length] }
  else
    { m1 with intValues := m1.intValues ++ [toInt32 m1.numericTokenValue],
              tokens := m1.tokens ++
                [NUMBER_TOKEN, u32ofInt L, 0, m1.intValues.length] }

/-- addNumberToken. -/
def addNumberToken (go : M → Nat → M) (m : M) (offset : Nat) : M :=
  let m2 := addNumberTokenCore m offset
  let n := refeedSwitchCount offset
  refeedN go n (bumpRefeed false n m2)

/-- addPercentageToken. -/
def addPercentageToken (m : M) : M :=
  { m with lex := .input,
           floatValues := m.floatValues ++ [m.numericTokenValue],
           tokens := m.tokens ++
             [PERCENTAGE_TOKEN, u32ofInt m.sourceLength,
               m.floatValues.length, 0],
           numericTokenIsFloat := false }

/-- The buffer-routing core of addDimensionToken: the value index and the
int/float flag are appended to the string-value buffer right after the unit;
the token slots delimit unit plus that two-entry suffix. -/
def addDimensionTokenCore (m : M) (offset : Nat) : M :=
  let m1 :=
    if m.numericTokenIsFloat then
      { m with numericTokenIsFloat := false,
               floatValues := m.floatValues ++ [m.numericTokenValue],
               stringValues := m.stringValues ++
                 [1, u32 m.floatValues.length] }
    else
      { m with intValues := m.intValues ++ [toInt32 m.numericTokenValue],
               stringValues := m.stringValues ++
                 [0, u32 m.intValues.length] }
  { m1 with lex := .input,
            tokens := m1.tokens ++
              [DIMENSION_TOKEN, u32ofInt (m1.sourceLength - offset),
                m1.stringValuesStart, m1.stringValues.length - 2],
            stringValuesStart := m1.stringValues.length }

/-- addDimensionToken (offset is always one or two at the call sites). -/
def addDimensionToken (go : M → Nat → M) (m : M) (offset : Nat) : M :=
  refeedBack go (addDimensionTokenCore m offset) offset

/-- addStringValueTokenWithoutOffset. -/
def addStringValueTokenWithoutOffset (m : M) (tokenType : Nat) : M :=
  { m with lex := .input,
           tokens := m.tokens ++
             [tokenType, u32ofInt m.sourceLength, m.stringValuesStart,
               m.stringValues.length],
           stringValuesStart := m.stringValues.length }

/-- addStringValueTokenWithOffset: offsets two and one are re-fed by the
fall-through switch without an error check; any other offset goes through
the error-checking while loop (the source remarks that the arbitrary loop
length is a rare edge case).  The exempt flag is ghost instrumentation
marking the one call site with unbounded offset. -/
def addStringValueTokenWithOffset (go : M → Nat → M) (exempt : Bool)
    (m : M) (tokenType offset : Nat) : M :=
  let m1 := { m with sourceLength := m.sourceLength - offset }
  let m2 := addStringValueTokenWithoutOffset m1 tokenType
  if offset = 2 then refeedN go 2 (bumpRefeed exempt 2 m2)
  else if offset = 1 then refeedN go 1 (bumpRefeed exempt 1 m2)
  else
    let r := refeedLoop go offset m2
    bumpRefeed exempt r.2 r.1

/-- addWhitespaceToken: emit the WHITESPACE token ending one before the
current position, then (unless an error is pending) re-feed the current
code point from the fresh input state. -/
def addWhitespaceToken (go : M → Nat → M) (m : M) (cp : Nat) : M :=
  let m1 := { m with lex := .input,
                     tokens := m.tokens ++
                       [WHITESPACE_TOKEN, u32ofInt (m.sourceLength - 1), 0,
                         0] }
  if m1.error = none then go (bumpRefeed false 1 m1) cp else m1

/-- The escape helper: latch the continuation state, switch to the escape
state and re-feed the current code point. -/
def escapeTo (go : M → Nat → M) (m : M) (s : LexState) (cp : Nat) : M :=
  go (bumpRefeed false 1 { m with lexAfterEscape := s, lex := .escape }) cp

/-- reconsumeCurrentCP. -/
def reconsumeCurrentCP (go : M → Nat → M) (m : M) (s : LexState) (cp : Nat) :
    M :=
  go (bumpRefeed false 1 { m with lex := s }) cp

/-- finishHexEscape. -/
def finishHexEscape (m : M) : M :=
  { stringValue m (normalizeEscapeCP m.escapeCP) with lex := m.lexAfterEscape }

/-- isStringValueURL, including the faithful transcription of the third
conjunct of the source, which tests the second accumulated code point
against lowercase l instead of the third. -/
def isStringValueURL (m : M) : Bool :=
  if m.stringValues.length - m.stringValuesStart ≠ 3 then false
  else
    let u := m.stringValues.getD m.stringValuesStart 0
    let r := m.stringValues.getD (m.stringValuesStart + 1) 0
    let l := m.stringValues.getD (m.stringValuesStart + 2) 0
    (u = 0x75 || u = 0x55) && (r = 0x72 || r = 0x52) &&
      (r = 0x6C || l = 0x4C)

/-! Lexical state methods.  Each definition s-Name transcribes the source
method of the corresponding name, branch for branch (including the
fall-through of switch cases that lack a return, which the source exhibits
in the functionOrURL, url, urlAfterWhitespace and badURLEscape states). -/

def sAtKeyword (go : M → Nat → M) (m : M) (cp : Nat) : M :=
  if isNameContinue cp then stringValue m cp
  else if cp = 0x5C then { m with lex := .atKeywordEscape }
  else addStringValueTokenWithOffset go false m AT_KEYWORD_TOKEN 1

def sAtKeywordEscape (go : M → Nat → M) (m : M) (cp : Nat) : M :=
  if cp = 0x0A then addStringValueTokenWithOffset go false m AT_KEYWORD_TOKEN 2
  else escapeTo go m .atKeyword cp

def sBadURL (m : M) (cp : Nat) : M :=
  if cp = 0x29 ∨ cp = EOF_SENTINEL then
    addStringValueTokenWithoutOffset m BAD_URL_TOKEN
  else if cp = 0x5C then { m with lex := .badURLEscape }
  else m

def sBadURLEscape (m : M) (cp : Nat) : M :=
  if cp = EOF_SENTINEL then
    let r := fail m "css-syntax-3" "consume-escaped-code-point"
    if r.2 then r.1
    else { addStringValueTokenWithoutOffset r.1 BAD_URL_TOKEN with
             lex := .badURL }
  else { m with lex := .badURL }

def sCdcOrIdent (go : M → Nat → M) (m : M) (cp : Nat) : M :=
  if cp = 0x3E then addGeneralTokenWithoutOffset m CDC_TOKEN
  else reconsumeCurrentCP go (stringValue (stringValue m 0x2D) 0x2D) .ident cp

def sComment (m : M) (cp : Nat) : M :=
  if cp = 0x2A then { m with lex := .commentAfterAsterisk }
  else if cp = EOF_SENTINEL then
    let r := fail m "css-syntax-3" "consume-comment"
    if r.2 then r.1 else addGeneralTokenWithoutOffset r.1 COMMENT_TOKEN
  else m

def sCommentAfterAsterisk (m : M) (cp : Nat) : M :=
  if cp = 0x2A then m
  else if cp = 0x2F then addGeneralTokenWithoutOffset m COMMENT_TOKEN
  else if cp = EOF_SENTINEL then
    let r := fail m "css-syntax-3" "consume-comment"
    if r.2 then r.1 else addGeneralTokenWithoutOffset r.1 COMMENT_TOKEN
  else { m with lex := .comment }

def sDelimOrAtKeyword (go : M → Nat → M) (m : M) (cp : Nat) : M :=
  if isNameStart cp then { stringValue m cp with lex := .atKeyword }
  else if cp = 0x2D then { m with lex := .delimOrAtKeywordAfterHyphen }
  else if cp = 0x5C then { m with lex := .delimOrAtKeywordAfterBackslash }
  else addDelimTokenWithOffset go m 0x40 1

def sDelimOrAtKeywordAfterBackslash (go : M → Nat → M) (m : M) (cp : Nat) :
    M :=
  if cp = 0x0A then addDelimTokenWithOffset go m 0x40 2
  else escapeTo go m .atKeyword cp

def sDelimOrAtKeywordAfterHyphen (go : M → Nat → M) (m : M) (cp : Nat) : M :=
  if isNameStart cp ∨ cp = 0x2D then
    { stringValue (stringValue m 0x2D) cp with lex := .atKeyword }
  else if cp = 0x5C then
    { m with lex := .delimOrAtKeywordAfterHyphenBackslash }
  else addDelimTokenWithOffset go m 0x40 2

def sDelimOrAtKeywordAfterHyphenBackslash (go : M → Nat → M) (m : M)
    (cp : Nat) : M :=
  if cp = 0x0A then addDelimTokenWithOffset go m 0x40 3
  else escapeTo go (stringValue m 0x2D) .atKeyword cp

def sDelimOrCDO (go : M → Nat → M) (m : M) (cp : Nat) : M :=
  if cp = 0x21 then { m with lex := .delimOrCDOAfterExclamationPoint }
  else addDelimTokenWithOffset go m 0x3C 1

def sDelimOrCDOAfterExclamationPoint (go : M → Nat → M) (m : M) (cp : Nat) :
    M :=
  if cp = 0x2D then { m with lex := .delimOrCDOAfterExclamationPointHyphen }
  else addDelimTokenWithOffset go m 0x3C 2

def sDelimOrCDOAfterExclamationPointHyphen (go : M → Nat → M) (m : M)
    (cp : Nat) : M :=
  if cp = 0x2D then addGeneralTokenWithoutOffset m CDO_TOKEN
  else addDelimTokenWithOffset go m 0x3C 3

def sDelimOrComment (go : M → Nat → M) (m : M) (cp : Nat) : M :=
  if cp = 0x2A then { m with lex := .comment }
  else addDelimTokenWithOffset go m 0x2F 1

def sDelimOrFractionalNumber (go : M → Nat → M) (m : M) (cp : Nat) : M :=
  if isDigit cp then
    { m with numericTokenIsFloat := true, lex := .numberInDecimal }
  else addDelimTokenWithOffset go m 0x2E 1

def sDelimOrHash (go : M → Nat → M) (m : M) (cp : Nat) : M :=
  if isNameStart cp then
    { stringValue m cp with hashTokenIsID := true, lex := .hash }
  else if cp = 0x2D then { stringValue m cp with lex := .hashAfterHyphen }
  else if cp = 0x5C then { m with lex := .delimOrHashAfterBackslash }
  else if isNameContinue cp then { stringValue m cp with lex := .hash }
  else addDelimTokenWithOffset go m 0x23 1

def sDelimOrHashAfterBackslash (go : M → Nat → M) (m : M) (cp : Nat) : M :=
  if cp = 0x0A then addDelimTokenWithOffset go m 0x23 2
  else escapeTo go { m with hashTokenIsID := true } .hash cp

def sDelimOrIdentAfterHyphenBackslash (go : M → Nat → M) (m : M) (cp : Nat) :
    M :=
  if cp = 0x0A then addDelimTokenWithOffset go m 0x2D 1
  else escapeTo go (stringValue m 0x2D) .ident cp

def sDelimOrIdentInitialEscape (go : M → Nat → M) (m : M) (cp : Nat) : M :=
  if cp = 0x0A then
    let r := fail m "css-syntax-3" "consume-token"
    if r.2 then r.1 else addDelimTokenWithOffset go r.1 0x5C 1
  else escapeTo go m .ident cp

/-- Transcription note: in the final else branch the source passes the
current code point cp, not the literal one, as the reconsume offset of
addDelimTokenWithOffset. -/
def sDelimOrNegativeSignedNumberOrCDCOrIdent (go : M → Nat → M) (m : M)
    (cp : Nat) : M :=
  if cp = 0x2D then { m with lex := .cdcOrIdent }
  else if cp = 0x2E then
    { m with lex := .delimOrNegativeSignedNumberFractional }
  else if cp = 0x5C then { m with lex := .delimOrIdentAfterHyphenBackslash }
  else if isDigit cp then { m with lex := .number }
  else if isNameStart cp then
    reconsumeCurrentCP go (stringValue m 0x2D) .ident cp
  else addDelimTokenWithOffset go m 0x2D cp

def sDelimOrNegativeSignedNumberFractional (go : M → Nat → M) (m : M)
    (cp : Nat) : M :=
  if isDigit cp then
    { m with numericTokenIsFloat := true, lex := .numberInDecimal }
  else addDelimTokenWithOffset go m 0x2D 2

def sDelimOrPositiveSignedNumber (go : M → Nat → M) (m : M) (cp : Nat) : M :=
  if cp = 0x2E then { m with lex := .delimOrPositiveSignedNumberFractional }
  else if isDigit cp then { m with lex := .number }
  else addDelimTokenWithOffset go m 0x2B 1

def sDelimOrPositiveSignedNumberFractional (go : M → Nat → M) (m : M)
    (cp : Nat) : M :=
  if isDigit cp then
    { m with numericTokenIsFloat := true, lex := .numberInDecimal }
  else addDelimTokenWithOffset go m 0x2B 2

def sEscape (m : M) (cp : Nat) : M :=
  if isHex cp then
    { m with escapeCount := 1, escapeCP := toHexValue cp, lex := .escapeHex }
  else if cp = EOF_SENTINEL then
    let r := fail m "css-syntax-3" "consume-escaped-code-point"
    { stringValue r.1 0xFFFD with lex := r.1.lexAfterEscape }
  else { stringValue m cp with lex := m.lexAfterEscape }

/-- Transcription note: on a hex digit the source shifts the accumulator
left four bits with the 32-bit shift operator; since the digit count is
capped at six the value stays below 2 ^ 24 and the shift never wraps, so it
is modeled as multiplication by 16. -/
def sEscapeHex (go : M → Nat → M) (m : M) (cp : Nat) : M :=
  if isHex cp then
    let m1 := { m with escapeCP := m.escapeCP * 16 + toHexValue cp,
                       escapeCount := m.escapeCount + 1 }
    if m1.escapeCount = 6 then finishHexEscape m1 else m1
  else
    let m1 := finishHexEscape m
    if cp = 0x09 ∨ cp = 0x0A ∨ cp = 0x20 then m1
    else go (bumpRefeed false 1 m1) cp

/-- Transcription note: the quote case of the source emits the FUNCTION
token (re-feeding the accumulated whitespace run plus the quote) and then
falls through into the default case, which truncates the string value and
reconsumes the current code point in the url state. -/
def sFunctionOrURL (go : M → Nat → M) (m : M) (cp : Nat) : M :=
  if cp = 0x09 ∨ cp = 0x0A ∨ cp = 0x20 then
    { m with urlWhitespaceCount := m.urlWhitespaceCount + 1 }
  else
    let m1 :=
      if cp = 0x22 ∨ cp = 0x27 then
        addStringValueTokenWithOffset go true m FUNCTION_TOKEN
          (m.urlWhitespaceCount + 1)
      else m
    reconsumeCurrentCP go (svTruncate m1) .url cp

def sHash (go : M → Nat → M) (m : M) (cp : Nat) : M :=
  if isNameContinue cp then stringValue m cp
  else if cp = 0x5C then { m with lex := .hashEscape }
  else addHashToken go m 1

def sHashAfterHyphen (go : M → Nat → M) (m : M) (cp : Nat) : M :=
  if isNameStart cp ∨ cp = 0x2D then
    { stringValue m cp with hashTokenIsID := true, lex := .hash }
  else if cp = 0x5C then { m with lex := .hashAfterHyphenBackslash }
  else if isNameContinue cp then { stringValue m cp with lex := .hash }
  else addHashToken go m 1

def sHashAfterHyphenBackslash (go : M → Nat → M) (m : M) (cp : Nat) : M :=
  if cp = 0x0A then addHashToken go m 2
  else escapeTo go { m with hashTokenIsID := true } .hash cp

def sHashEscape (go : M → Nat → M) (m : M) (cp : Nat) : M :=
  if cp = 0x0A then addHashToken go m 2
  else escapeTo go m .hash cp

def sIdent (go : M → Nat → M) (m : M) (cp : Nat) : M :=
  if isNameContinue cp then stringValue m cp
  else if cp = 0x5C then { m with lex := .identEscape }
  else if cp = 0x28 then
    if isStringValueURL m then
      { m with urlWhitespaceCount := 0, lex := .functionOrURL }
    else addStringValueTokenWithoutOffset m FUNCTION_TOKEN
  else addStringValueTokenWithOffset go false m IDENT_TOKEN 1

def sIdentEscape (go : M → Nat → M) (m : M) (cp : Nat) : M :=
  if cp = 0x0A then addStringValueTokenWithOffset go false m IDENT_TOKEN 2
  else escapeTo go m .ident cp

def sInput (go : M → Nat → M) (m : M) (cp : Nat) : M :=
  if cp = 0x09 ∨ cp = 0x0A ∨ cp = 0x20 then { m with lex := .whitespace }
  else if cp = 0x22 then { m with stringDelimiter := 0x22, lex := .string }
  else if cp = 0x23 then { m with lex := .delimOrHash }
  else if cp = 0x27 then { m with stringDelimiter := 0x27, lex := .string }
  else if cp = 0x28 then
    addGeneralTokenWithoutOffset m LEFT_PARENTHESIS_TOKEN
  else if cp = 0x29 then
    addGeneralTokenWithoutOffset m RIGHT_PARENTHESIS_TOKEN
  else if cp = 0x2B then { m with lex := .delimOrPositiveSignedNumber }
  else if cp = 0x2C then addGeneralTokenWithoutOffset m COMMA_TOKEN
  else if cp = 0x2D then
    { m with lex := .delimOrNegativeSignedNumberOrCDCOrIdent }
  else if cp = 0x2E then { m with lex := .delimOrFractionalNumber }
  else if cp = 0x2F then { m with lex := .delimOrComment }
  else if isDigit cp then { m with lex := .number }
  else if cp = 0x3A then addGeneralTokenWithoutOffset m COLON_TOKEN
  else if cp = 0x3B then addGeneralTokenWithoutOffset m SEMICOLON_TOKEN
  else if cp = 0x3C then { m with lex := .delimOrCDO }
  else if cp = 0x40 then { m with lex := .delimOrAtKeyword }
  else if cp = 0x5B then addGeneralTokenWithoutOffset m LEFT_BRACKET_TOKEN
  else if cp = 0x5C then { m with lex := .delimOrIdentInitialEscape }
  else if cp = 0x5D then addGeneralTokenWithoutOffset m RIGHT_BRACKET_TOKEN
  else if cp = 0x7B then addGeneralTokenWithoutOffset m LEFT_BRACE_TOKEN
  else if cp = 0x7D then addGeneralTokenWithoutOffset m RIGHT_BRACE_TOKEN
  else if cp = EOF_SENTINEL then m
  else if isNameStart cp then reconsumeCurrentCP go m .ident cp
  else addDelimTokenWithoutOffset m cp

def sNumber (pf : List Nat → ℚ) (go : M → Nat → M) (m : M) (cp : Nat) : M :=
  if cp = 0x25 then addPercentageToken (commitNumber pf m 1)
  else if cp = 0x2D then
    { commitNumber pf m 1 with lex := .numberPossibleUnitHyphen }
  else if cp = 0x2E then { m with lex := .numberPossibleFraction }
  else if isDigit cp then m
  else if cp = 0x45 ∨ cp = 0x65 then
    { m with lex := .numberPossibleExponentOrUnit }
  else if cp = 0x5C then
    { commitNumber pf m 1 with lex := .numberPossibleUnitBackslash }
  else
    let m1 := commitNumber pf m 1
    if isNameStart cp then { stringValue m1 cp with lex := .numberUnit }
    else addNumberToken go m1 1

def sNumberExponent (pf : List Nat → ℚ) (go : M → Nat → M) (m : M)
    (cp : Nat) : M :=
  if cp = 0x25 then addPercentageToken (commitNumber pf m 1)
  else if cp = 0x2D then
    { commitNumber pf m 1 with lex := .numberPossibleUnitHyphen }
  else if isDigit cp then m
  else if cp = 0x5C then
    { commitNumber pf m 1 with lex := .numberPossibleUnitBackslash }
  else
    let m1 := commitNumber pf m 1
    if isNameStart cp then { stringValue m1 cp with lex := .numberUnit }
    else addNumberToken go m1 1

def sNumberInDecimal (pf : List Nat → ℚ) (go : M → Nat → M) (m : M)
    (cp : Nat) : M :=
  if cp = 0x25 then addPercentageToken (commitNumber pf m 1)
  else if cp = 0x2D then
    { commitNumber pf m 1 with lex := .numberPossibleUnitHyphen }
  else if isDigit cp then m
  else if cp = 0x45 ∨ cp = 0x65 then
    { m with lex := .numberPossibleExponentOrUnit }
  else if cp = 0x5C then
    { commitNumber pf m 1 with lex := .numberPossibleUnitBackslash }
  else
    let m1 := commitNumber pf m 1
    if isNameStart cp then { stringValue m1 cp with lex := .numberUnit }
    else addNumberToken go m1 1

def sNumberPossibleExponentOrUnit (pf : List Nat → ℚ) (go : M → Nat → M)
    (m : M) (cp : Nat) : M :=
  if cp = 0x2B then
    { m with lex := .numberPossibleExponentSignedOrUnitPlus }
  else if cp = 0x2D then
    { m with lex := .numberPossibleExponentSignedOrUnitHyphen }
  else if isDigit cp then
    { m with numericTokenIsFloat := true, lex := .numberExponent }
  else if cp = 0x5C then
    let m1 := commitNumber pf m 2
    let m2 := stringValue m1 (m1.source (m1.sourceLength - 2))
    reconsumeCurrentCP go m2 .numberUnitEscape 0x5C
  else
    let m1 := commitNumber pf m 2
    let m2 := stringValue m1 (m1.source (m1.sourceLength - 2))
    if isNameContinue cp then { stringValue m2 cp with lex := .numberUnit }
    else addDimensionToken go m2 1

def sNumberPossibleExponentSignedOrUnitPlus (pf : List Nat → ℚ)
    (go : M → Nat → M) (m : M) (cp : Nat) : M :=
  if isDigit cp then
    { m with numericTokenIsFloat := true, lex := .numberExponent }
  else
    let m1 := commitNumber pf m 3
    let m2 := stringValue m1 (m1.source (m1.sourceLength - 3))
    addDimensionToken go m2 2

def sNumberPossibleExponentSignedOrUnitHyphen (pf : List Nat → ℚ)
    (go : M → Nat → M) (m : M) (cp : Nat) : M :=
  if isDigit cp then
    { m with numericTokenIsFloat := true, lex := .numberExponent }
  else
    let m1 := stringValue m (m.source (m.sourceLength - 3))
    let m2 := stringValue m1 0x2D
    if isNameContinue cp ∨ cp = 0x5C then
      reconsumeCurrentCP go m2 .numberUnit cp
    else addDimensionToken go (commitNumber pf m2 3) 2

def sNumberPossibleFraction (pf : List Nat → ℚ) (go : M → Nat → M) (m : M)
    (cp : Nat) : M :=
  if isDigit cp then
    { m with numericTokenIsFloat := true, lex := .numberInDecimal }
  else addNumberToken go (commitNumber pf m 2) 2

def sNumberPossibleUnitBackslash (go : M → Nat → M) (m : M) (cp : Nat) : M :=
  if cp = 0x0A then addNumberToken go m 2
  else escapeTo go m .numberUnit cp

def sNumberPossibleUnitHyphen (go : M → Nat → M) (m : M) (cp : Nat) : M :=
  if cp = 0x2D then
    { stringValue (stringValue m 0x2D) 0x2D with lex := .numberUnit }
  else if cp = 0x5C then { m with lex := .numberPossibleUnitHyphenBackslash }
  else if isNameStart cp then
    { stringValue (stringValue m 0x2D) cp with lex := .numberUnit }
  else addNumberToken go m 2

def sNumberPossibleUnitHyphenBackslash (go : M → Nat → M) (m : M)
    (cp : Nat) : M :=
  if cp = 0x0A then addNumberToken go m 3
  else escapeTo go (stringValue m 0x2D) .numberUnit cp

def sNumberUnit (go : M → Nat → M) (m : M) (cp : Nat) : M :=
  if cp = 0x5C then { m with lex := .numberUnitEscape }
  else if isNameContinue cp then stringValue m cp
  else addDimensionToken go m 1

def sNumberUnitEscape (go : M → Nat → M) (m : M) (cp : Nat) : M :=
  if cp = 0x0A then addDimensionToken go m 2
  else escapeTo go m .numberUnit cp

def sString (go : M → Nat → M) (m : M) (cp : Nat) : M :=
  if cp = m.stringDelimiter then
    addStringValueTokenWithoutOffset m STRING_TOKEN
  else if cp = 0x0A then
    let r := fail m "css-syntax-3" "consume-a-string-token"
    if r.2 then r.1
    else addStringValueTokenWithOffset go false (svTruncate r.1)
      BAD_STRING_TOKEN 1
  else if cp = 0x5C then { m with lex := .stringEscape }
  else if cp = EOF_SENTINEL then
    let r := fail m "css-syntax-3" "consume-a-string-token"
    if r.2 then r.1 else addStringValueTokenWithoutOffset r.1 STRING_TOKEN
  else stringValue m cp

def sStringEscape (go : M → Nat → M) (m : M) (cp : Nat) : M :=
  if cp = 0x0A then { m with lex := .string }
  else if cp = EOF_SENTINEL then
    let r := fail m "css-syntax-3" "consume-a-string-token"
    if r.2 then r.1 else addStringValueTokenWithoutOffset r.1 STRING_TOKEN
  else escapeTo go m .string cp

/-- Non-printable case labels of the url state switch: 0x00-0x08, 0x0B,
0x0E-0x1F and 0x7F. -/
def isNonPrintableURL (cp : Nat) : Bool :=
  cp ≤ 0x08 || cp = 0x0B || (0x0E ≤ cp && cp ≤ 0x1F) || cp = 0x7F

/-- Transcription note: in the source the non-printable case lacks a return
and falls through into the end-of-input case (which records a second error
and emits a URL token) and then into the default case (which appends the
current code point to the string value); the end-of-input case likewise
falls through into the default case.  Both fall-throughs are transcribed
exactly. -/
def sUrl (m : M) (cp : Nat) : M :=
  if cp = 0x09 ∨ cp = 0x0A ∨ cp = 0x20 then
    { m with lex := .urlAfterWhitespace }
  else if cp = 0x22 ∨ cp = 0x27 ∨ cp = 0x28 then
    let r := fail m "css-syntax-3" "consume-url-token"
    { svTruncate r.1 with lex := .badURL }
  else if cp = 0x29 then addStringValueTokenWithoutOffset m URL_TOKEN
  else if cp = 0x5C then { m with lex := .urlEscape }
  else if isNonPrintableURL cp then
    let r1 := fail m "css-syntax-3" "consume-url-token"
    let m1 := { svTruncate r1.1 with lex := .badURL }
    let r2 := fail m1 "css-syntax-3" "consume-url-token"
    stringValue (addStringValueTokenWithoutOffset r2.1 URL_TOKEN) cp
  else if cp = EOF_SENTINEL then
    let r := fail m "css-syntax-3" "consume-url-token"
    stringValue (addStringValueTokenWithoutOffset r.1 URL_TOKEN) cp
  else stringValue m cp

/-- Transcription note: the end-of-input case checks the fail result and,
when it answers false (recover mode), falls through into the closing
parenthesis case, emitting the URL token. -/
def sUrlAfterWhitespace (m : M) (cp : Nat) : M :=
  if cp = 0x09 ∨ cp = 0x0A ∨ cp = 0x20 then m
  else if cp = EOF_SENTINEL then
    let r := fail m "css-syntax-3" "consume-url-token"
    if r.2 then r.1 else addStringValueTokenWithoutOffset r.1 URL_TOKEN
  else if cp = 0x29 then addStringValueTokenWithoutOffset m URL_TOKEN
  else { svTruncate m with lex := .badURL }

def sUrlEscape (go : M → Nat → M) (m : M) (cp : Nat) : M :=
  if cp = 0x0A then { svTruncate m with lex := .badURL }
  else escapeTo go m .url cp

def sWhitespace (go : M → Nat → M) (m : M) (cp : Nat) : M :=
  if cp = 0x09 ∨ cp = 0x0A ∨ cp = 0x20 then m
  else addWhitespaceToken go m cp

/-- The dispatcher: invoke the current lexical state on one code point.
Fuel makes the reconsumption recursion structural; exhausted fuel only
raises the instrumentation flag. -/
def lexCP (pf : List Nat → ℚ) : Nat → M → Nat → M
  | 0, m, _ => { m with fuelOut := true }
  | fuel + 1, m, cp =>
    let go := lexCP pf fuel
    match m.lex with
    | .atKeyword => sAtKeyword go m cp
    | .atKeywordEscape => sAtKeywordEscape go m cp
    | .badURL => sBadURL m cp
    | .badURLEscape => sBadURLEscape m cp
    | .cdcOrIdent => sCdcOrIdent go m cp
    | .comment => sComment m cp
    | .commentAfterAsterisk => sCommentAfterAsterisk m cp
    | .delimOrAtKeyword => sDelimOrAtKeyword go m cp
    | .delimOrAtKeywordAfterBackslash =>
        sDelimOrAtKeywordAfterBackslash go m cp
    | .delimOrAtKeywordAfterHyphen => sDelimOrAtKeywordAfterHyphen go m cp
    | .delimOrAtKeywordAfterHyphenBackslash =>
        sDelimOrAtKeywordAfterHyphenBackslash go m cp
    | .delimOrCDO => sDelimOrCDO go m cp
    | .delimOrCDOAfterExclamationPoint =>
        sDelimOrCDOAfterExclamationPoint go m cp
    | .delimOrCDOAfterExclamationPointHyphen =>
        sDelimOrCDOAfterExclamationPointHyphen go m cp
    | .delimOrComment => sDelimOrComment go m cp
    | .delimOrFractionalNumber => sDelimOrFractionalNumber go m cp
    | .delimOrHash => sDelimOrHash go m cp
    | .delimOrHashAfterBackslash => sDelimOrHashAfterBackslash go m cp
    | .delimOrIdentAfterHyphenBackslash =>
        sDelimOrIdentAfterHyphenBackslash go m cp
    | .delimOrIdentInitialEscape => sDelimOrIdentInitialEscape go m cp
    | .delimOrNegativeSignedNumberOrCDCOrIdent =>
        sDelimOrNegativeSignedNumberOrCDCOrIdent go m cp
    | .delimOrNegativeSignedNumberFractional =>
        sDelimOrNegativeSignedNumberFractional go m cp
    | .delimOrPositiveSignedNumber => sDelimOrPositiveSignedNumber go m cp
    | .delimOrPositiveSignedNumberFractional =>
        sDelimOrPositiveSignedNumberFractional go m cp
    | .escape => sEscape m cp
    | .escapeHex => sEscapeHex go m cp
    | .functionOrURL => sFunctionOrURL go m cp
    | .hash => sHash go m cp
    | .hashAfterHyphen => sHashAfterHyphen go m cp
    | .hashAfterHyphenBackslash => sHashAfterHyphenBackslash go m cp
    | .hashEscape => sHashEscape go m cp
    | .ident => sIdent go m cp
    | .identEscape => sIdentEscape go m cp
    | .input => sInput go m cp
    | .number => sNumber pf go m cp
    | .numberExponent => sNumberExponent pf go m cp
    | .numberInDecimal => sNumberInDecimal pf go m cp
    | .numberPossibleExponentOrUnit =>
        sNumberPossibleExponentOrUnit pf go m cp
    | .numberPossibleExponentSignedOrUnitPlus =>
        sNumberPossibleExponentSignedOrUnitPlus pf go m cp
    | .numberPossibleExponentSignedOrUnitHyphen =>
        sNumberPossibleExponentSignedOrUnitHyphen pf go m cp
    | .numberPossibleFraction => sNumberPossibleFraction pf go m cp
    | .numberPossibleUnitBackslash => sNumberPossibleUnitBackslash go m cp
    | .numberPossibleUnitHyphen => sNumberPossibleUnitHyphen go m cp
    | .numberPossibleUnitHyphenBackslash =>
        sNumberPossibleUnitHyphenBackslash go m cp
    | .numberUnit => sNumberUnit go m cp
    | .numberUnitEscape => sNumberUnitEscape go m cp
    | .string => sString go m cp
    | .stringEscape => sStringEscape go m cp
    | .url => sUrl m cp
    | .urlAfterWhitespace => sUrlAfterWhitespace m cp
    | .urlEscape => sUrlEscape go m cp
    | .whitespace => sWhitespace go m cp

/-- The stream-preprocessing replacement applied inside the write loop. -/
def normCP (cp : Nat) : Nat :=
  if cp = 0x00 then 0xFFFD else if cp = 0x0C ∨ cp = 0x0D then 0x0A else cp

/-- One iteration of the write loop: drop a line feed right after a stored
carriage return; otherwise normalize, store the code point with its
position, invoke the current state, and (when no error is pending) advance
the line and column counters. -/
def procCP (pf : List Nat → ℚ) (fuel : Nat) (m : M) (cp0 : Nat) : M :=
  if m.lastCPWasCR ∧ cp0 = 0x0A then { m with lastCPWasCR := false }
  else
    let cp := normCP cp0
    let m1 := { m with lastCPWasCR := cp = 0x0D,
                       source := setSource m cp,
                       sourceLength := m.sourceLength + 1,
                       positions := m.positions ++ [m.line, m.column] }
    let m2 := lexCP pf fuel m1 cp
    if m2.error ≠ none then m2
    else if cp = 0x0A ∨ cp = 0x2028 ∨ cp = 0x2029 then
      { m2 with line := m2.line + 1, column := 0 }
    else { m2 with column := m2.column + 1 }

/-- One write call: process the code points of the chunk in order, stopping
right after the code point whose processing left an error recorded. -/
def writeChunk (pf : List Nat → ℚ) (fuel : Nat) (m : M) :
    List Nat → M
  | [] => m
  | cp :: rest =>
    let m1 := procCP pf fuel m cp
    if m1.error.isSome then m1 else writeChunk pf fuel m1 rest

/-- Successive write calls. -/
def writeChunks (pf : List Nat → ℚ) (fuel : Nat) (m : M) :
    List (List Nat) → M
  | [] => m
  | c :: cs => writeChunks pf fuel (writeChunk pf fuel m c) cs

/-- finish: unless an error is already recorded, store the end-of-input
sentinel, invoke the current state on it once, and drop it from the source
length again. -/
def finish (pf : List Nat → ℚ) (fuel : Nat) (m : M) : M :=
  if m.error.isSome then m
  else
    let m1 := { m with source := setSource m EOF_SENTINEL,
                       sourceLength := m.sourceLength + 1 }
    let m2 := lexCP pf fuel m1 EOF_SENTINEL
    { m2 with sourceLength := m2.sourceLength - 1 }

/-- The freshly constructed machine (buffer capacity abstracted away; the
size option only pre-sizes buffers). -/
def init (recover : Bool) : M where
  column := 0
  error := none
  errors := []
  escapeCount := 0
  escapeCP := 0
  floatValues := []
  hashTokenIsID := false
  intValues := []
  lastCPWasCR := false
  lex := .input
  lexAfterEscape := .input
  line := 0
  numericTokenIsFloat := false
  numericTokenValue := 0
  positions := []
  recover := recover
  source := fun _ => 0
  sourceLength := 0
  stringDelimiter := 0
  stringValues := []
  stringValuesStart := 0
  tokens := []
  urlWhitespaceCount := 0
  ghostRefeedMax := 0
  ghostOtherRefeedMax := 0
  fuelOut := false

/-- Feed a partition of the input through successive write calls and then
signal end-of-input. -/
def tokenize (pf : List Nat → ℚ) (fuel : Nat) (recover : Bool)
    (chunks : List (List Nat)) : M :=
  finish pf fuel (writeChunks pf fuel (init recover) chunks)

/-! An exact decimal parser used to instantiate the abstract host parser pf
in closed computations.  On every slice it is applied to in this file the
value is exactly representable as an IEEE-754 double, so it coincides with
the Number.parseFloat result the source obtains. -/

/-- Value of a list of decimal-digit code points. -/
def digitsVal (l : List Nat) : Nat :=
  l.foldl (fun a d => a * 10 + (d - 0x30)) 0

/-- Syntactic part of the exact decimal parse: signed integer mantissa
(integer and fraction digits run together) and a power-of-ten exponent
(exponent part minus the number of fraction digits), for a numeral of the
form sign digits [ dot digits ] [ e sign digits ]. -/
def decParseParts (cps : List Nat) : Int × Int :=
  let sgnNeg : Bool := cps.headD 0 = 0x2D
  let r1 := if cps.headD 0 = 0x2D ∨ cps.headD 0 = 0x2B then cps.tail else cps
  let intPart := r1.takeWhile (fun d => isDigit d)
  let r2 := r1.dropWhile (fun d => isDigit d)
  let fracPart :=
    if r2.headD 0 = 0x2E then r2.tail.takeWhile (fun d => isDigit d) else []
  let r3 :=
    if r2.headD 0 = 0x2E then r2.tail.dropWhile (fun d => isDigit d) else r2
  let expVal : Int :=
    if r3.headD 0 = 0x45 ∨ r3.headD 0 = 0x65 then
      if r3.tail.headD 0 = 0x2D then
        -(digitsVal (r3.tail.tail.takeWhile (fun c => isDigit c)) : Int)
      else if r3.tail.headD 0 = 0x2B then
        (digitsVal (r3.tail.tail.takeWhile (fun c => isDigit c)) : Int)
      else (digitsVal (r3.tail.takeWhile (fun c => isDigit c)) : Int)
    else 0
  let mant : Int := (digitsVal (intPart ++ fracPart) : Int)
  ((if sgnNeg then -mant else mant), expVal - fracPart.length)

/-- Rational value of a syntactic parse. -/
def decVal (p : Int × Int) : ℚ := (p.1 : ℚ) * (10 : ℚ) ^ p.2

/-- Exact rational value of a decimal numeral. -/
def decParse (cps : List Nat) : ℚ := decVal (decParseParts cps)

/-- Truncation of a rational toward zero (the integer part Number
truncation the C5 claim speaks of, before any wrapping). -/
def ratTrunc (q : ℚ) : Int := q.num / (q.den : Int)

/-- Specification predicate for the amended C7 claim: whether the stored
code points following the hash sign would start an identifier in the sense
the hash disambiguation states implement.  The list argument is the
normalized code-point stream after the hash sign, with the end-of-input
sentinel appended. -/
def hashIdFlagSpec (xs : List Nat) : Bool :=
  let c1 := xs.getD 0 EOF_SENTINEL
  let c2 := xs.getD 1 EOF_SENTINEL
  let c3 := xs.getD 2 EOF_SENTINEL
  if isNameStart c1 then true
  else if c1 = 0x2D then
    isNameStart c2 || c2 = 0x2D || (c2 = 0x5C && c3 ≠ 0x0A)
  else if c1 = 0x5C then c2 ≠ 0x0A
  else false

/-- The hash-flag predicate as the C7 claim literally states it, applied to
the decoded identifier sv of a HASH token: the decoded identifier begins
with an identifier-start code point, or begins with a hyphen-minus followed
by an identifier-start code point. -/
def claimC7Predicate (sv : List Nat) : Bool :=
  isNameStart (sv.getD 0 0) ||
    (sv.getD 0 0 = 0x2D && isNameStart (sv.getD 1 0))

/-! Theorems.  Code points in the inputs below are written in decimal.  The
abstract host parser is instantiated with decParse in every closed
computation; the inputs involved make it coincide with IEEE-754 parsing. -/

/-- C1: the input url left-parenthesis space f o o space right-parenthesis
(all lowercase) does not produce a URL token at all: the url detection test
of the source compares the second accumulated code point against lowercase
l (a typo for the third), so a lowercase url( is downgraded to a FUNCTION
token named url, followed by WHITESPACE, IDENT foo, WHITESPACE and
RIGHT_PARENTHESIS.  This contradicts the claim (and the example table in
the source itself, which states that source url(foo) has URL_TOKEN string
value foo). -/
theorem c1_url_literal_failing_input :
    (tokenize decParse 32 true
        [[117, 114, 108, 40, 32, 102, 111, 111, 32, 41]]).tokens
      = [FUNCTION_TOKEN, 4, 0, 3, WHITESPACE_TOKEN, 5, 0, 0,
         IDENT_TOKEN, 8, 3, 6, WHITESPACE_TOKEN, 9, 0, 0,
         RIGHT_PARENTHESIS_TOKEN, 10, 0, 0] ∧
    (tokenize decParse 32 true
        [[117, 114, 108, 40, 32, 102, 111, 111, 32, 41]]).stringValues
      = [117, 114, 108, 102, 111, 111] ∧
    URL_TOKEN ∉ (tokenize decParse 32 true
        [[117, 114, 108, 40, 32, 102, 111, 111, 32, 41]]).tokens := by
  refine ⟨by decide, by decide, by decide⟩

/-- C1 auxiliary: with an uppercase L the comparison succeeds and the URL
token with string value foo is produced, confirming that the lowercase
failure above is exactly the typo. -/
theorem c1_url_uppercase_works :
    (tokenize decParse 32 true
        [[117, 114, 76, 40, 32, 102, 111, 111, 32, 41]]).tokens
      = [URL_TOKEN, 10, 0, 3] ∧
    (tokenize decParse 32 true
        [[117, 114, 76, 40, 32, 102, 111, 111, 32, 41]]).stringValues
      = [102, 111, 111] := by
  refine ⟨by decide, by decide⟩

/-- C2: the write loop decides whether to swallow a line feed from the
lastCPWasCR flag, but sets that flag from the code point after the
carriage-return-to-line-feed replacement has already been applied, so the
flag is never true and the line feed of a CR LF pair is never dropped: the
two-code-point chunk CR LF yields a normalized source of two line feeds
(the claim requires exactly one), in one chunk or split across two. -/
theorem c2_crlf_not_coalesced :
    (writeChunk decParse 8 (init true) [13, 10]).sourceLength = 2 ∧
    (writeChunk decParse 8 (init true) [13, 10]).source 0 = 10 ∧
    (writeChunk decParse 8 (init true) [13, 10]).source 1 = 10 ∧
    (writeChunks decParse 8 (init true) [[13], [10]]).sourceLength = 2 := by
  refine ⟨by decide, by decide, by decide, by decide⟩

/-- C3: in strict mode (recover false), the non-printable branch of the url
state lacks a return and falls through into the end-of-input branch: on the
input u r L ( 0x01 the first fail call sets the error field, yet a URL
token is still appended (and the code point is even pushed onto the string
value).  The claim that no token is appended after the first fail is
violated at exactly the error site it singles out. -/
theorem c3_strict_url_nonprintable_token_after_fail :
    (tokenize decParse 16 false [[117, 114, 76, 40, 1]]).error.isSome
      = true ∧
    (tokenize decParse 16 false [[117, 114, 76, 40, 1]]).tokens
      = [URL_TOKEN, 5, 0, 0] := by
  refine ⟨by decide, by decide⟩

/-- C4 counterexample: after a hex escape of exactly six digits the
following whitespace code point is not consumed as escape terminator but
handed to the continuation state: the input backslash 0 0 0 0 4 1 space b
semicolon decodes the escape to A, but then tokenizes as IDENT A,
WHITESPACE, IDENT b, SEMICOLON.  Were the trailing whitespace consumed as
terminator, as the claim states, no WHITESPACE token could be emitted there
and bwould continue the first identifier. -/
theorem c4_six_digit_escape_ws_not_consumed :
    (tokenize decParse 16 true
        [[92, 48, 48, 48, 48, 52, 49, 32, 98, 59]]).tokens
      = [IDENT_TOKEN, 7, 0, 1, WHITESPACE_TOKEN, 8, 0, 0,
         IDENT_TOKEN, 9, 1, 2, SEMICOLON_TOKEN, 10, 0, 0] ∧
    (tokenize decParse 16 true
        [[92, 48, 48, 48, 48, 52, 49, 32, 98, 59]]).stringValues
      = [65, 98] ∧
    WHITESPACE_TOKEN ∈ (tokenize decParse 16 true
        [[92, 48, 48, 48, 48, 52, 49, 32, 98, 59]]).tokens := by
  refine ⟨by decide, by decide, by decide⟩

/-- C5 counterexample: the integer buffer is an Int32Array, so the store
applies ToInt32; for the input 5 0 0 0 0 0 0 0 0 0 semicolon the parsed
value 5000000000 is stored wrapped as 705032704, which differs from the
truncation of the parse the claim promises.  The run instantiates the host
parser with the constant 5000000000; during this run the parser is invoked
exactly once, on the numeric slice 5 0 0 0 0 0 0 0 0 0, where the exact
decimal parse (third conjunct) and the IEEE-754 parse agree with that
constant (the value is exactly representable as a double). -/
theorem c5_int32_wrap_counterexample :
    (tokenize (fun _ => (5000000000 : ℚ)) 16 true
        [[53, 48, 48, 48, 48, 48, 48, 48, 48, 48, 59]]).tokens
      = [NUMBER_TOKEN, 10, 0, 0, SEMICOLON_TOKEN, 11, 0, 0] ∧
    (tokenize (fun _ => (5000000000 : ℚ)) 16 true
        [[53, 48, 48, 48, 48, 48, 48, 48, 48, 48, 59]]).intValues
      = [705032704] ∧
    decParse [53, 48, 48, 48, 48, 48, 48, 48, 48, 48] = 5000000000 ∧
    ratTrunc (5000000000 : ℚ) = 5000000000 ∧
    (705032704 : Int) ≠ ratTrunc (5000000000 : ℚ) := by
  refine ⟨by decide, by decide, ?_, by decide, by decide⟩
  have h : decParseParts [53, 48, 48, 48, 48, 48, 48, 48, 48, 48]
      = (5000000000, 0) := by decide
  rw [decParse, h, decVal]
  norm_num

/-- C6: the final else branch of the negative-signed-number state passes
the current code point as the reconsume offset of addDelimTokenWithOffset
(the sibling states pass the literal one).  On the input hyphen space
hyphen space the offset 32 collapses sourceLength to a negative value,
whose Uint32 store wraps, and the two DELIM tokens are emitted with
strictly decreasing end indices, contradicting the monotonicity claim (and
the never-more-than-three remark in the source itself). -/
theorem c6_token_ends_decrease :
    (tokenize decParse 16 true [[45, 32, 45, 32]]).tokens
      = [DELIM_TOKEN, 4294967266, 45, 0, DELIM_TOKEN, 4294967236, 45, 0] ∧
    (tokenize decParse 16 true [[45, 32, 45, 32]]).tokens.getD 5 0
      < (tokenize decParse 16 true [[45, 32, 45, 32]]).tokens.getD 1 0 := by
  refine ⟨by decide, by decide⟩

/-- C7 counterexample: the input hash hyphen hyphen semicolon emits a HASH
token whose is-id bit is one although its decoded identifier, two hyphens,
neither begins with an identifier-start code point nor is a hyphen followed
by an identifier-start code point: the claimed characterization of the flag
is too narrow (the disambiguation states also accept a second hyphen or an
escape, per the CSS would-start-an-identifier check). -/
theorem c7_hash_double_hyphen_counterexample :
    (tokenize decParse 16 true [[35, 45, 45, 59]]).tokens
      = [HASH_TOKEN, 3, 1, 2, SEMICOLON_TOKEN, 4, 0, 0] ∧
    (tokenize decParse 16 true [[35, 45, 45, 59]]).stringValues
      = [45, 45] ∧
    ((tokenize decParse 16 true [[35, 45, 45, 59]]).tokens.getD 2 0) % 2
      = 1 ∧
    claimC7Predicate [45, 45] = false := by
  refine ⟨by decide, by decide, by decide, by decide⟩

/-- C8 counterexample: after u r L ( and a run of three whitespace code
points, a double quote makes the URL disambiguation state emit the FUNCTION
token and re-feed the whole whitespace run plus the quote: four stored code
points, exceeding the claimed bound of three (the instrumentation field
ghostRefeedMax records the largest single re-feed of the run). -/
theorem c8_refeed_exceeds_three :
    (tokenize decParse 16 true
        [[117, 114, 76, 40, 32, 32, 32, 34]]).ghostRefeedMax = 4 ∧
    3 < (tokenize decParse 16 true
        [[117, 114, 76, 40, 32, 32, 32, 34]]).ghostRefeedMax := by
  refine ⟨by decide, by decide⟩

/-- C9 counterexample: in strict mode an error stops a write call only
after the offending code point, but a subsequent write call still processes
one further code point before noticing the pending error.  For the input
quote x line-feed semicolon (an unterminated-string error at the line
feed), feeding it whole leaves the string value x, while feeding the
semicolon in a second chunk pushes it onto the string value: the chunking
changes the observable buffers, contradicting chunk independence as
claimed. -/
theorem c9_strict_chunking_differs :
    (tokenize decParse 16 false [[34, 120, 10, 59]]).stringValues
      = [120] ∧
    (tokenize decParse 16 false [[34, 120, 10], [59]]).stringValues
      = [120, 59] ∧
    (tokenize decParse 16 false [[34, 120, 10, 59]]).stringValues
      ≠ (tokenize decParse 16 false [[34, 120, 10], [59]]).stringValues := by
  refine ⟨by decide, by decide, by decide⟩

/-- C10: in recover mode, fail appends one Error built from the current
state to the error list and returns false, leaving every other field of the
machine unchanged (the result is exactly the input record with the extended
error list). -/
theorem c10_fail_recover_frame (m : M) (module hash : String)
    (h : m.recover = true) :
    fail m module hash
      = ({ m with errors := m.errors ++ [errRecOf m module hash] }, false) := by
  simp [fail, h]

/-! Step invariant.  Keeps m m2 collects the frame facts every dispatcher
step preserves: the recover flag and the lastCPWasCR flag are untouched by
lexical states, the error field is untouched in recover mode, tokens are
append-only, and the ghost counter of non-exempt re-feeds never climbs
above three (every non-exempt reconsumption site re-feeds a constant number
of at most three stored code points).  It is proved for lexCP by fuel
induction, one lemma per helper and per state. -/

def Keeps (m m2 : M) : Prop :=
  m2.recover = m.recover ∧
  m2.lastCPWasCR = m.lastCPWasCR ∧
  (m.recover = true → m2.error = m.error) ∧
  (∃ t, m2.tokens = m.tokens ++ t) ∧
  m2.ghostOtherRefeedMax ≤ max m.ghostOtherRefeedMax 3

theorem keeps_refl (m : M) : Keeps m m :=
  ⟨rfl, rfl, fun _ => rfl, ⟨[], by simp⟩, le_max_left _ _⟩

theorem keeps_trans {a b c : M} (h1 : Keeps a b) (h2 : Keeps b c) :
    Keeps a c := by
  obtain ⟨r1, l1, e1, ⟨t1, k1⟩, g1⟩ := h1
  obtain ⟨r2, l2, e2, ⟨t2, k2⟩, g2⟩ := h2
  refine ⟨r2.trans r1, l2.trans l1, ?_, ⟨t1 ++ t2, by rw [k2, k1]; simp⟩, ?_⟩
  · intro h; rw [e2 (r1.trans h), e1 h]
  · calc c.ghostOtherRefeedMax ≤ max b.ghostOtherRefeedMax 3 := g2
      _ ≤ max (max a.ghostOtherRefeedMax 3) 3 :=
          max_le_max g1 (le_refl 3)
      _ = max a.ghostOtherRefeedMax 3 := by
          rw [max_assoc]; simp

theorem keeps_of_fields {m m2 : M} (h1 : m2.recover = m.recover)
    (h2 : m2.lastCPWasCR = m.lastCPWasCR) (h3 : m2.error = m.error)
    (h4 : ∃ t, m2.tokens = m.tokens ++ t)
    (h5 : m2.ghostOtherRefeedMax ≤ max m.ghostOtherRefeedMax 3) :
    Keeps m m2 :=
  ⟨h1, h2, fun _ => h3, h4, h5⟩

/-- The workhorse for branches that touch none of the observed fields (the
hypotheses are discharged by rfl thanks to definitional record
projection). -/
theorem keeps_untouched {m m2 : M} (h1 : m2.recover = m.recover)
    (h2 : m2.lastCPWasCR = m.lastCPWasCR) (h3 : m2.error = m.error)
    (h4 : m2.tokens = m.tokens)
    (h5 : m2.ghostOtherRefeedMax = m.ghostOtherRefeedMax) : Keeps m m2 :=
  keeps_of_fields h1 h2 h3 ⟨[], by rw [h4]; simp⟩ (by rw [h5]; exact le_max_left _ _)

/-- Pattern lemma: a token list of the shape xs ++ t extends xs. -/
theorem tokens_extend {xs t : List Nat} : ∃ u, xs ++ t = xs ++ u := ⟨t, rfl⟩

theorem keeps_append {m m2 : M} (h1 : m2.recover = m.recover)
    (h2 : m2.lastCPWasCR = m.lastCPWasCR) (h3 : m2.error = m.error)
    (h4 : ∃ u, m2.tokens = m.tokens ++ u)
    (h5 : m2.ghostOtherRefeedMax = m.ghostOtherRefeedMax) : Keeps m m2 :=
  keeps_of_fields h1 h2 h3 h4 (by rw [h5]; exact le_max_left _ _)

theorem keeps_fail (m : M) (a b : String) : Keeps m (fail m a b).1 := by
  by_cases h : m.recover = true
  · exact keeps_untouched (by simp [fail, h]) (by simp [fail, h])
      (by simp [fail, h]) (by simp [fail, h]) (by simp [fail, h])
  · refine ⟨by simp [fail, h], by simp [fail, h], fun hc => absurd hc h,
      ⟨[], by simp [fail, h]⟩, by simp [fail, h]⟩

theorem refeedSwitchCount_le (offset : Nat) : refeedSwitchCount offset ≤ 3 := by
  unfold refeedSwitchCount
  repeat' split
  all_goals omega

theorem keeps_bumpRefeed_le {m : M} {n : Nat} (e : Bool) (h : n ≤ 3) :
    Keeps m (bumpRefeed e n m) := by
  refine keeps_of_fields rfl rfl rfl ⟨[], by simp [bumpRefeed]⟩ ?_
  cases e
  all_goals simp [bumpRefeed]
  all_goals omega

theorem keeps_bumpRefeed_exempt (m : M) (n : Nat) :
    Keeps m (bumpRefeed true n m) :=
  keeps_untouched rfl rfl rfl rfl rfl

theorem keeps_refeedN {go : M → Nat → M}
    (hgo : ∀ m cp, Keeps m (go m cp)) :
    ∀ (n : Nat) (m : M), Keeps m (refeedN go n m)
  | 0, m => keeps_refl m
  | k + 1, m =>
    keeps_trans
      (keeps_trans (keeps_untouched rfl rfl rfl rfl rfl :
          Keeps m { m with sourceLength := m.sourceLength + 1 })
        (hgo _ _))
      (keeps_refeedN hgo k _)

theorem keeps_refeedLoop {go : M → Nat → M}
    (hgo : ∀ m cp, Keeps m (go m cp)) :
    ∀ (k : Nat) (m : M), Keeps m (refeedLoop go k m).1
  | 0, m => keeps_refl m
  | k + 1, m => by
    unfold refeedLoop
    split
    · exact keeps_refl m
    · exact keeps_trans
        (keeps_trans (keeps_untouched rfl rfl rfl rfl rfl :
            Keeps m { m with sourceLength := m.sourceLength + 1 })
          (hgo _ _))
        (keeps_refeedLoop hgo k _)

theorem keeps_addDelimTokenWithOffset {go : M → Nat → M}
    (hgo : ∀ m cp, Keeps m (go m cp)) (m : M) (cp offset : Nat) :
    Keeps m (addDelimTokenWithOffset go m cp offset) := by
  show Keeps m (refeedN go (refeedSwitchCount offset)
    (bumpRefeed false (refeedSwitchCount offset)
      (addDelimTokenWithoutOffset
        { m with sourceLength := m.sourceLength - offset } cp)))
  refine keeps_trans ?_ (keeps_refeedN hgo _ _)
  refine keeps_trans ?_ (keeps_bumpRefeed_le false (refeedSwitchCount_le offset))
  exact keeps_trans
    (keeps_untouched rfl rfl rfl rfl rfl :
      Keeps m { m with sourceLength := m.sourceLength - offset })
    (keeps_append rfl rfl rfl tokens_extend rfl)

theorem keeps_addNumberTokenCore (m : M) (offset : Nat) :
    Keeps m (addNumberTokenCore m offset) := by
  unfold addNumberTokenCore
  dsimp only
  split
  · exact keeps_append rfl rfl rfl tokens_extend rfl
  · exact keeps_append rfl rfl rfl tokens_extend rfl

theorem keeps_addNumberToken {go : M → Nat → M}
    (hgo : ∀ m cp, Keeps m (go m cp)) (m : M) (offset : Nat) :
    Keeps m (addNumberToken go m offset) := by
  show Keeps m (refeedN go (refeedSwitchCount offset)
    (bumpRefeed false (refeedSwitchCount offset) (addNumberTokenCore m offset)))
  refine keeps_trans ?_ (keeps_refeedN hgo _ _)
  refine keeps_trans ?_ (keeps_bumpRefeed_le false (refeedSwitchCount_le offset))
  exact keeps_addNumberTokenCore m offset

theorem keeps_refeedBack {go : M → Nat → M}
    (hgo : ∀ m cp, Keeps m (go m cp)) (m : M) (offset : Nat) :
    Keeps m (refeedBack go m offset) := by
  unfold refeedBack
  split
  · exact keeps_trans (keeps_bumpRefeed_le false (by omega)) (hgo _ _)
  · exact keeps_trans
      (keeps_trans
        (keeps_trans
          (keeps_untouched rfl rfl rfl rfl rfl :
            Keeps m { m with sourceLength := m.sourceLength - 1 })
          (keeps_bumpRefeed_le false (by omega)))
        (hgo _ _))
      (keeps_untouched rfl rfl rfl rfl rfl)

theorem keeps_addHashToken {go : M → Nat → M}
    (hgo : ∀ m cp, Keeps m (go m cp)) (m : M) (offset : Nat) :
    Keeps m (addHashToken go m offset) := by
  unfold addHashToken
  dsimp only
  refine keeps_trans ?_ (keeps_refeedBack hgo _ _)
  exact keeps_append rfl rfl rfl tokens_extend rfl

theorem keeps_addDimensionTokenCore (m : M) (offset : Nat) :
    Keeps m (addDimensionTokenCore m offset) := by
  unfold addDimensionTokenCore
  split
  · exact keeps_append rfl rfl rfl tokens_extend rfl
  · exact keeps_append rfl rfl rfl tokens_extend rfl

theorem keeps_addDimensionToken {go : M → Nat → M}
    (hgo : ∀ m cp, Keeps m (go m cp)) (m : M) (offset : Nat) :
    Keeps m (addDimensionToken go m offset) := by
  show Keeps m (refeedBack go (addDimensionTokenCore m offset) offset)
  exact keeps_trans (keeps_addDimensionTokenCore m offset)
    (keeps_refeedBack hgo _ _)

theorem keeps_addStringValueTokenWithoutOffset (m : M) (tokenType : Nat) :
    Keeps m (addStringValueTokenWithoutOffset m tokenType) :=
  keeps_append rfl rfl rfl tokens_extend rfl

theorem keeps_addStringValueTokenWithOffset_exempt {go : M → Nat → M}
    (hgo : ∀ m cp, Keeps m (go m cp)) (m : M) (tokenType offset : Nat) :
    Keeps m (addStringValueTokenWithOffset go true m tokenType offset) := by
  unfold addStringValueTokenWithOffset
  have base : Keeps m (addStringValueTokenWithoutOffset
      { m with sourceLength := m.sourceLength - offset } tokenType) :=
    keeps_trans (keeps_untouched rfl rfl rfl rfl rfl :
        Keeps m { m with sourceLength := m.sourceLength - offset })
      (keeps_addStringValueTokenWithoutOffset _ _)
  split
  · exact keeps_trans (keeps_trans base (keeps_bumpRefeed_exempt _ _))
      (keeps_refeedN hgo _ _)
  split
  · exact keeps_trans (keeps_trans base (keeps_bumpRefeed_exempt _ _))
      (keeps_refeedN hgo _ _)
  · exact keeps_trans (keeps_trans base (keeps_refeedLoop hgo _ _))
      (keeps_bumpRefeed_exempt _ _)

theorem keeps_addStringValueTokenWithOffset_small {go : M → Nat → M}
    (hgo : ∀ m cp, Keeps m (go m cp)) (m : M) (tokenType offset : Nat)
    (hoff : offset = 1 ∨ offset = 2) :
    Keeps m (addStringValueTokenWithOffset go false m tokenType offset) := by
  unfold addStringValueTokenWithOffset
  have base : Keeps m (addStringValueTokenWithoutOffset
      { m with sourceLength := m.sourceLength - offset } tokenType) :=
    keeps_trans (keeps_untouched rfl rfl rfl rfl rfl :
        Keeps m { m with sourceLength := m.sourceLength - offset })
      (keeps_addStringValueTokenWithoutOffset _ _)
  split
  · exact keeps_trans (keeps_trans base (keeps_bumpRefeed_le false (by omega)))
      (keeps_refeedN hgo _ _)
  split
  · exact keeps_trans (keeps_trans base (keeps_bumpRefeed_le false (by omega)))
      (keeps_refeedN hgo _ _)
  · omega

theorem keeps_addWhitespaceToken {go : M → Nat → M}
    (hgo : ∀ m cp, Keeps m (go m cp)) (m : M) (cp : Nat) :
    Keeps m (addWhitespaceToken go m cp) := by
  unfold addWhitespaceToken
  dsimp only
  split
  · refine keeps_trans ?_ (hgo _ _)
    refine keeps_trans ?_ (keeps_bumpRefeed_le false (by omega))
    exact keeps_append rfl rfl rfl tokens_extend rfl
  · exact keeps_append rfl rfl rfl tokens_extend rfl

theorem keeps_escapeTo {go : M → Nat → M}
    (hgo : ∀ m cp, Keeps m (go m cp)) (m : M) (s : LexState) (cp : Nat) :
    Keeps m (escapeTo go m s cp) :=
  keeps_trans
    (keeps_trans (keeps_untouched rfl rfl rfl rfl rfl :
        Keeps m { m with lexAfterEscape := s, lex := .escape })
      (keeps_bumpRefeed_le false (by omega)))
    (hgo _ _)

theorem keeps_reconsumeCurrentCP {go : M → Nat → M}
    (hgo : ∀ m cp, Keeps m (go m cp)) (m : M) (s : LexState) (cp : Nat) :
    Keeps m (reconsumeCurrentCP go m s cp) :=
  keeps_trans
    (keeps_trans (keeps_untouched rfl rfl rfl rfl rfl :
        Keeps m { m with lex := s })
      (keeps_bumpRefeed_le false (by omega)))
    (hgo _ _)

theorem keeps_setLex (m : M) (s : LexState) : Keeps m { m with lex := s } :=
  keeps_untouched rfl rfl rfl rfl rfl

theorem keeps_stringValue (m : M) (cp : Nat) : Keeps m (stringValue m cp) :=
  keeps_untouched rfl rfl rfl rfl rfl

theorem keeps_svTruncate (m : M) : Keeps m (svTruncate m) :=
  keeps_untouched rfl rfl rfl rfl rfl

theorem keeps_commitNumber (pf : List Nat → ℚ) (m : M) (k : Nat) :
    Keeps m (commitNumber pf m k) :=
  keeps_untouched rfl rfl rfl rfl rfl

theorem keeps_addGeneralTokenWithoutOffset (m : M) (t : Nat) :
    Keeps m (addGeneralTokenWithoutOffset m t) :=
  keeps_append rfl rfl rfl tokens_extend rfl

theorem keeps_addDelimTokenWithoutOffset (m : M) (cp : Nat) :
    Keeps m (addDelimTokenWithoutOffset m cp) :=
  keeps_append rfl rfl rfl tokens_extend rfl

theorem keeps_addPercentageToken (m : M) : Keeps m (addPercentageToken m) :=
  keeps_append rfl rfl rfl tokens_extend rfl

theorem keeps_sAtKeyword {go : M → Nat → M}
    (hgo : ∀ m cp, Keeps m (go m cp)) (m : M) (cp : Nat) :
    Keeps m (sAtKeyword go m cp) := by
  unfold sAtKeyword
  split
  · exact keeps_stringValue m cp
  split
  · exact keeps_setLex m _
  · exact keeps_addStringValueTokenWithOffset_small hgo m _ 1 (Or.inl rfl)

theorem keeps_sAtKeywordEscape {go : M → Nat → M}
    (hgo : ∀ m cp, Keeps m (go m cp)) (m : M) (cp : Nat) :
    Keeps m (sAtKeywordEscape go m cp) := by
  unfold sAtKeywordEscape
  split
  · exact keeps_addStringValueTokenWithOffset_small hgo m _ 2 (Or.inr rfl)
  · exact keeps_escapeTo hgo m _ cp

theorem keeps_sBadURL (m : M) (cp : Nat) : Keeps m (sBadURL m cp) := by
  unfold sBadURL
  split
  · exact keeps_addStringValueTokenWithoutOffset m _
  split
  · exact keeps_setLex m _
  · exact keeps_refl m

theorem keeps_sBadURLEscape (m : M) (cp : Nat) :
    Keeps m (sBadURLEscape m cp) := by
  unfold sBadURLEscape
  dsimp only
  split
  · split
    · exact keeps_fail m _ _
    · exact keeps_trans (keeps_trans (keeps_fail m _ _)
        (keeps_addStringValueTokenWithoutOffset _ _)) (keeps_setLex _ _)
  · exact keeps_setLex m _

theorem keeps_sCdcOrIdent {go : M → Nat → M}
    (hgo : ∀ m cp, Keeps m (go m cp)) (m : M) (cp : Nat) :
    Keeps m (sCdcOrIdent go m cp) := by
  unfold sCdcOrIdent
  split
  · exact keeps_addGeneralTokenWithoutOffset m _
  · exact keeps_trans (keeps_trans (keeps_stringValue m _)
      (keeps_stringValue _ _)) (keeps_reconsumeCurrentCP hgo _ _ _)

theorem keeps_sComment (m : M) (cp : Nat) : Keeps m (sComment m cp) := by
  unfold sComment
  dsimp only
  split
  · exact keeps_setLex m _
  split
  · split
    · exact keeps_fail m _ _
    · exact keeps_trans (keeps_fail m _ _)
        (keeps_addGeneralTokenWithoutOffset _ _)
  · exact keeps_refl m

theorem keeps_sCommentAfterAsterisk (m : M) (cp : Nat) :
    Keeps m (sCommentAfterAsterisk m cp) := by
  unfold sCommentAfterAsterisk
  dsimp only
  split
  · exact keeps_refl m
  split
  · exact keeps_addGeneralTokenWithoutOffset m _
  split
  · split
    · exact keeps_fail m _ _
    · exact keeps_trans (keeps_fail m _ _)
        (keeps_addGeneralTokenWithoutOffset _ _)
  · exact keeps_setLex m _

theorem keeps_sDelimOrAtKeyword {go : M → Nat → M}
    (hgo : ∀ m cp, Keeps m (go m cp)) (m : M) (cp : Nat) :
    Keeps m (sDelimOrAtKeyword go m cp) := by
  unfold sDelimOrAtKeyword
  split
  · exact keeps_trans (keeps_stringValue m cp)
      (keeps_untouched rfl rfl rfl rfl rfl)
  split
  · exact keeps_setLex m _
  split
  · exact keeps_setLex m _
  · exact keeps_addDelimTokenWithOffset hgo m _ _

theorem keeps_sDelimOrAtKeywordAfterBackslash {go : M → Nat → M}
    (hgo : ∀ m cp, Keeps m (go m cp)) (m : M) (cp : Nat) :
    Keeps m (sDelimOrAtKeywordAfterBackslash go m cp) := by
  unfold sDelimOrAtKeywordAfterBackslash
  split
  · exact keeps_addDelimTokenWithOffset hgo m _ _
  · exact keeps_escapeTo hgo m _ cp

theorem keeps_sDelimOrAtKeywordAfterHyphen {go : M → Nat → M}
    (hgo : ∀ m cp, Keeps m (go m cp)) (m : M) (cp : Nat) :
    Keeps m (sDelimOrAtKeywordAfterHyphen go m cp) := by
  unfold sDelimOrAtKeywordAfterHyphen
  split
  · exact keeps_trans (keeps_stringValue m 0x2D)
      (keeps_trans (keeps_stringValue (stringValue m 0x2D) cp)
        (keeps_untouched rfl rfl rfl rfl rfl))
  split
  · exact keeps_setLex m _
  · exact keeps_addDelimTokenWithOffset hgo m _ _

theorem keeps_sDelimOrAtKeywordAfterHyphenBackslash {go : M → Nat → M}
    (hgo : ∀ m cp, Keeps m (go m cp)) (m : M) (cp : Nat) :
    Keeps m (sDelimOrAtKeywordAfterHyphenBackslash go m cp) := by
  unfold sDelimOrAtKeywordAfterHyphenBackslash
  split
  · exact keeps_addDelimTokenWithOffset hgo m _ _
  · exact keeps_trans (keeps_stringValue m _) (keeps_escapeTo hgo _ _ cp)

theorem keeps_sDelimOrCDO {go : M → Nat → M}
    (hgo : ∀ m cp, Keeps m (go m cp)) (m : M) (cp : Nat) :
    Keeps m (sDelimOrCDO go m cp) := by
  unfold sDelimOrCDO
  split
  · exact keeps_setLex m _
  · exact keeps_addDelimTokenWithOffset hgo m _ _

theorem keeps_sDelimOrCDOAfterExclamationPoint {go : M → Nat → M}
    (hgo : ∀ m cp, Keeps m (go m cp)) (m : M) (cp : Nat) :
    Keeps m (sDelimOrCDOAfterExclamationPoint go m cp) := by
  unfold sDelimOrCDOAfterExclamationPoint
  split
  · exact keeps_setLex m _
  · exact keeps_addDelimTokenWithOffset hgo m _ _

theorem keeps_sDelimOrCDOAfterExclamationPointHyphen {go : M → Nat → M}
    (hgo : ∀ m cp, Keeps m (go m cp)) (m : M) (cp : Nat) :
    Keeps m (sDelimOrCDOAfterExclamationPointHyphen go m cp) := by
  unfold sDelimOrCDOAfterExclamationPointHyphen
  split
  · exact keeps_addGeneralTokenWithoutOffset m _
  · exact keeps_addDelimTokenWithOffset hgo m _ _

theorem keeps_sDelimOrComment {go : M → Nat → M}
    (hgo : ∀ m cp, Keeps m (go m cp)) (m : M) (cp : Nat) :
    Keeps m (sDelimOrComment go m cp) := by
  unfold sDelimOrComment
  split
  · exact keeps_setLex m _
  · exact keeps_addDelimTokenWithOffset hgo m _ _

theorem keeps_sDelimOrFractionalNumber {go : M → Nat → M}
    (hgo : ∀ m cp, Keeps m (go m cp)) (m : M) (cp : Nat) :
    Keeps m (sDelimOrFractionalNumber go m cp) := by
  unfold sDelimOrFractionalNumber
  split
  · exact keeps_untouched rfl rfl rfl rfl rfl
  · exact keeps_addDelimTokenWithOffset hgo m _ _

theorem keeps_sDelimOrHash {go : M → Nat → M}
    (hgo : ∀ m cp, Keeps m (go m cp)) (m : M) (cp : Nat) :
    Keeps m (sDelimOrHash go m cp) := by
  unfold sDelimOrHash
  split
  · exact keeps_trans (keeps_stringValue m cp)
      (keeps_untouched rfl rfl rfl rfl rfl)
  split
  · exact keeps_trans (keeps_stringValue m cp)
      (keeps_untouched rfl rfl rfl rfl rfl)
  split
  · exact keeps_setLex m _
  split
  · exact keeps_trans (keeps_stringValue m cp)
      (keeps_untouched rfl rfl rfl rfl rfl)
  · exact keeps_addDelimTokenWithOffset hgo m _ _

theorem keeps_sDelimOrHashAfterBackslash {go : M → Nat → M}
    (hgo : ∀ m cp, Keeps m (go m cp)) (m : M) (cp : Nat) :
    Keeps m (sDelimOrHashAfterBackslash go m cp) := by
  unfold sDelimOrHashAfterBackslash
  split
  · exact keeps_addDelimTokenWithOffset hgo m _ _
  · exact keeps_trans (keeps_untouched rfl rfl rfl rfl rfl :
      Keeps m { m with hashTokenIsID := true }) (keeps_escapeTo hgo _ _ cp)

theorem keeps_sDelimOrIdentAfterHyphenBackslash {go : M → Nat → M}
    (hgo : ∀ m cp, Keeps m (go m cp)) (m : M) (cp : Nat) :
    Keeps m (sDelimOrIdentAfterHyphenBackslash go m cp) := by
  unfold sDelimOrIdentAfterHyphenBackslash
  split
  · exact keeps_addDelimTokenWithOffset hgo m _ _
  · exact keeps_trans (keeps_stringValue m _) (keeps_escapeTo hgo _ _ cp)

theorem keeps_sDelimOrIdentInitialEscape {go : M → Nat → M}
    (hgo : ∀ m cp, Keeps m (go m cp)) (m : M) (cp : Nat) :
    Keeps m (sDelimOrIdentInitialEscape go m cp) := by
  unfold sDelimOrIdentInitialEscape
  dsimp only
  split
  · split
    · exact keeps_fail m _ _
    · exact keeps_trans (keeps_fail m _ _)
        (keeps_addDelimTokenWithOffset hgo _ _ _)
  · exact keeps_escapeTo hgo m _ cp

theorem keeps_sDelimOrNegativeSignedNumberOrCDCOrIdent {go : M → Nat → M}
    (hgo : ∀ m cp, Keeps m (go m cp)) (m : M) (cp : Nat) :
    Keeps m (sDelimOrNegativeSignedNumberOrCDCOrIdent go m cp) := by
  unfold sDelimOrNegativeSignedNumberOrCDCOrIdent
  split
  · exact keeps_setLex m _
  split
  · exact keeps_setLex m _
  split
  · exact keeps_setLex m _
  split
  · exact keeps_setLex m _
  split
  · exact keeps_trans (keeps_stringValue m _)
      (keeps_reconsumeCurrentCP hgo _ _ _)
  · exact keeps_addDelimTokenWithOffset hgo m _ _

theorem keeps_sDelimOrNegativeSignedNumberFractional {go : M → Nat → M}
    (hgo : ∀ m cp, Keeps m (go m cp)) (m : M) (cp : Nat) :
    Keeps m (sDelimOrNegativeSignedNumberFractional go m cp) := by
  unfold sDelimOrNegativeSignedNumberFractional
  split
  · exact keeps_untouched rfl rfl rfl rfl rfl
  · exact keeps_addDelimTokenWithOffset hgo m _ _

theorem keeps_sDelimOrPositiveSignedNumber {go : M → Nat → M}
    (hgo : ∀ m cp, Keeps m (go m cp)) (m : M) (cp : Nat) :
    Keeps m (sDelimOrPositiveSignedNumber go m cp) := by
  unfold sDelimOrPositiveSignedNumber
  split
  · exact keeps_setLex m _
  split
  · exact keeps_setLex m _
  · exact keeps_addDelimTokenWithOffset hgo m _ _

theorem keeps_sDelimOrPositiveSignedNumberFractional {go : M → Nat → M}
    (hgo : ∀ m cp, Keeps m (go m cp)) (m : M) (cp : Nat) :
    Keeps m (sDelimOrPositiveSignedNumberFractional go m cp) := by
  unfold sDelimOrPositiveSignedNumberFractional
  split
  · exact keeps_untouched rfl rfl rfl rfl rfl
  · exact keeps_addDelimTokenWithOffset hgo m _ _

theorem keeps_sEscape (m : M) (cp : Nat) : Keeps m (sEscape m cp) := by
  unfold sEscape
  dsimp only
  split
  · exact keeps_untouched rfl rfl rfl rfl rfl
  split
  · exact keeps_trans (keeps_fail m _ _)
      (keeps_untouched rfl rfl rfl rfl rfl)
  · exact keeps_trans (keeps_stringValue m cp)
      (keeps_untouched rfl rfl rfl rfl rfl)

theorem keeps_sEscapeHex {go : M → Nat → M}
    (hgo : ∀ m cp, Keeps m (go m cp)) (m : M) (cp : Nat) :
    Keeps m (sEscapeHex go m cp) := by
  unfold sEscapeHex
  dsimp only
  split
  · split
    · exact keeps_untouched rfl rfl rfl rfl rfl
    · exact keeps_untouched rfl rfl rfl rfl rfl
  · split
    · exact keeps_untouched rfl rfl rfl rfl rfl
    · refine keeps_trans ?_ (hgo _ _)
      refine keeps_trans ?_ (keeps_bumpRefeed_le false (by omega))
      exact keeps_untouched rfl rfl rfl rfl rfl

theorem keeps_sFunctionOrURL {go : M → Nat → M}
    (hgo : ∀ m cp, Keeps m (go m cp)) (m : M) (cp : Nat) :
    Keeps m (sFunctionOrURL go m cp) := by
  unfold sFunctionOrURL
  dsimp only
  split
  · exact keeps_untouched rfl rfl rfl rfl rfl
  · split
    · refine keeps_trans ?_ (keeps_reconsumeCurrentCP hgo _ _ _)
      refine keeps_trans ?_ (keeps_svTruncate _)
      exact keeps_addStringValueTokenWithOffset_exempt hgo m _ _
    · refine keeps_trans ?_ (keeps_reconsumeCurrentCP hgo _ _ _)
      exact keeps_svTruncate m

theorem keeps_sHash {go : M → Nat → M}
    (hgo : ∀ m cp, Keeps m (go m cp)) (m : M) (cp : Nat) :
    Keeps m (sHash go m cp) := by
  unfold sHash
  split
  · exact keeps_stringValue m cp
  split
  · exact keeps_setLex m _
  · exact keeps_addHashToken hgo m _

theorem keeps_sHashAfterHyphen {go : M → Nat → M}
    (hgo : ∀ m cp, Keeps m (go m cp)) (m : M) (cp : Nat) :
    Keeps m (sHashAfterHyphen go m cp) := by
  unfold sHashAfterHyphen
  split
  · exact keeps_trans (keeps_stringValue m cp)
      (keeps_untouched rfl rfl rfl rfl rfl)
  split
  · exact keeps_setLex m _
  split
  · exact keeps_trans (keeps_stringValue m cp)
      (keeps_untouched rfl rfl rfl rfl rfl)
  · exact keeps_addHashToken hgo m _

theorem keeps_sHashAfterHyphenBackslash {go : M → Nat → M}
    (hgo : ∀ m cp, Keeps m (go m cp)) (m : M) (cp : Nat) :
    Keeps m (sHashAfterHyphenBackslash go m cp) := by
  unfold sHashAfterHyphenBackslash
  split
  · exact keeps_addHashToken hgo m _
  · exact keeps_trans (keeps_untouched rfl rfl rfl rfl rfl :
      Keeps m { m with hashTokenIsID := true }) (keeps_escapeTo hgo _ _ cp)

theorem keeps_sHashEscape {go : M → Nat → M}
    (hgo : ∀ m cp, Keeps m (go m cp)) (m : M) (cp : Nat) :
    Keeps m (sHashEscape go m cp) := by
  unfold sHashEscape
  split
  · exact keeps_addHashToken hgo m _
  · exact keeps_escapeTo hgo m _ cp

theorem keeps_sIdent {go : M → Nat → M}
    (hgo : ∀ m cp, Keeps m (go m cp)) (m : M) (cp : Nat) :
    Keeps m (sIdent go m cp) := by
  unfold sIdent
  split
  · exact keeps_stringValue m cp
  split
  · exact keeps_setLex m _
  split
  · split
    · exact keeps_untouched rfl rfl rfl rfl rfl
    · exact keeps_addStringValueTokenWithoutOffset m _
  · exact keeps_addStringValueTokenWithOffset_small hgo m _ 1 (Or.inl rfl)

theorem keeps_sIdentEscape {go : M → Nat → M}
    (hgo : ∀ m cp, Keeps m (go m cp)) (m : M) (cp : Nat) :
    Keeps m (sIdentEscape go m cp) := by
  unfold sIdentEscape
  split
  · exact keeps_addStringValueTokenWithOffset_small hgo m _ 2 (Or.inr rfl)
  · exact keeps_escapeTo hgo m _ cp

theorem keeps_ite {c : Prop} [Decidable c] {m a b : M}
    (ha : Keeps m a) (hb : Keeps m b) : Keeps m (if c then a else b) := by
  split
  · exact ha
  · exact hb

theorem keeps_sInput {go : M → Nat → M}
    (hgo : ∀ m cp, Keeps m (go m cp)) (m : M) (cp : Nat) :
    Keeps m (sInput go m cp) := by
  delta sInput
  exact keeps_ite (keeps_setLex m _) (keeps_ite
    (keeps_untouched rfl rfl rfl rfl rfl) (keeps_ite
    (keeps_setLex m _) (keeps_ite
    (keeps_untouched rfl rfl rfl rfl rfl) (keeps_ite
    (keeps_addGeneralTokenWithoutOffset m _) (keeps_ite
    (keeps_addGeneralTokenWithoutOffset m _) (keeps_ite
    (keeps_setLex m _) (keeps_ite
    (keeps_addGeneralTokenWithoutOffset m _) (keeps_ite
    (keeps_setLex m _) (keeps_ite
    (keeps_setLex m _) (keeps_ite
    (keeps_setLex m _) (keeps_ite
    (keeps_setLex m _) (keeps_ite
    (keeps_addGeneralTokenWithoutOffset m _) (keeps_ite
    (keeps_addGeneralTokenWithoutOffset m _) (keeps_ite
    (keeps_setLex m _) (keeps_ite
    (keeps_setLex m _) (keeps_ite
    (keeps_addGeneralTokenWithoutOffset m _) (keeps_ite
    (keeps_setLex m _) (keeps_ite
    (keeps_addGeneralTokenWithoutOffset m _) (keeps_ite
    (keeps_addGeneralTokenWithoutOffset m _) (keeps_ite
    (keeps_addGeneralTokenWithoutOffset m _) (keeps_ite
    (keeps_refl m) (keeps_ite
    (keeps_reconsumeCurrentCP hgo m _ cp)
    (keeps_addDelimTokenWithoutOffset m cp)))))))))))))))))))))))

theorem keeps_sNumber (pf : List Nat → ℚ) {go : M → Nat → M}
    (hgo : ∀ m cp, Keeps m (go m cp)) (m : M) (cp : Nat) :
    Keeps m (sNumber pf go m cp) := by
  unfold sNumber
  split
  · exact keeps_trans (keeps_commitNumber pf m 1) (keeps_addPercentageToken _)
  split
  · exact keeps_trans (keeps_commitNumber pf m 1) (keeps_setLex _ _)
  split
  · exact keeps_setLex m _
  split
  · exact keeps_refl m
  split
  · exact keeps_setLex m _
  split
  · exact keeps_trans (keeps_commitNumber pf m 1) (keeps_setLex _ _)
  · dsimp only
    split
    · exact keeps_trans (keeps_trans (keeps_commitNumber pf m 1)
        (keeps_stringValue _ _)) (keeps_setLex _ _)
    · exact keeps_trans (keeps_commitNumber pf m 1)
        (keeps_addNumberToken hgo _ 1)

theorem keeps_sNumberExponent (pf : List Nat → ℚ) {go : M → Nat → M}
    (hgo : ∀ m cp, Keeps m (go m cp)) (m : M) (cp : Nat) :
    Keeps m (sNumberExponent pf go m cp) := by
  unfold sNumberExponent
  split
  · exact keeps_trans (keeps_commitNumber pf m 1) (keeps_addPercentageToken _)
  split
  · exact keeps_trans (keeps_commitNumber pf m 1) (keeps_setLex _ _)
  split
  · exact keeps_refl m
  split
  · exact keeps_trans (keeps_commitNumber pf m 1) (keeps_setLex _ _)
  · dsimp only
    split
    · exact keeps_trans (keeps_trans (keeps_commitNumber pf m 1)
        (keeps_stringValue _ _)) (keeps_setLex _ _)
    · exact keeps_trans (keeps_commitNumber pf m 1)
        (keeps_addNumberToken hgo _ 1)

theorem keeps_sNumberInDecimal (pf : List Nat → ℚ) {go : M → Nat → M}
    (hgo : ∀ m cp, Keeps m (go m cp)) (m : M) (cp : Nat) :
    Keeps m (sNumberInDecimal pf go m cp) := by
  unfold sNumberInDecimal
  split
  · exact keeps_trans (keeps_commitNumber pf m 1) (keeps_addPercentageToken _)
  split
  · exact keeps_trans (keeps_commitNumber pf m 1) (keeps_setLex _ _)
  split
  · exact keeps_refl m
  split
  · exact keeps_setLex m _
  split
  · exact keeps_trans (keeps_commitNumber pf m 1) (keeps_setLex _ _)
  · dsimp only
    split
    · exact keeps_trans (keeps_trans (keeps_commitNumber pf m 1)
        (keeps_stringValue _ _)) (keeps_setLex _ _)
    · exact keeps_trans (keeps_commitNumber pf m 1)
        (keeps_addNumberToken hgo _ 1)

theorem keeps_sNumberPossibleExponentOrUnit (pf : List Nat → ℚ)
    {go : M → Nat → M} (hgo : ∀ m cp, Keeps m (go m cp)) (m : M) (cp : Nat) :
    Keeps m (sNumberPossibleExponentOrUnit pf go m cp) := by
  unfold sNumberPossibleExponentOrUnit
  split
  · exact keeps_setLex m _
  split
  · exact keeps_setLex m _
  split
  · exact keeps_untouched rfl rfl rfl rfl rfl
  split
  · exact keeps_trans (keeps_trans (keeps_commitNumber pf m 2)
      (keeps_stringValue _ _)) (keeps_reconsumeCurrentCP hgo _ _ _)
  · dsimp only
    split
    · exact keeps_trans (keeps_trans (keeps_trans (keeps_commitNumber pf m 2)
        (keeps_stringValue _ _)) (keeps_stringValue _ _)) (keeps_setLex _ _)
    · exact keeps_trans (keeps_trans (keeps_commitNumber pf m 2)
        (keeps_stringValue _ _)) (keeps_addDimensionToken hgo _ 1)

theorem keeps_sNumberPossibleExponentSignedOrUnitPlus (pf : List Nat → ℚ)
    {go : M → Nat → M} (hgo : ∀ m cp, Keeps m (go m cp)) (m : M) (cp : Nat) :
    Keeps m (sNumberPossibleExponentSignedOrUnitPlus pf go m cp) := by
  unfold sNumberPossibleExponentSignedOrUnitPlus
  split
  · exact keeps_untouched rfl rfl rfl rfl rfl
  · exact keeps_trans (keeps_trans (keeps_commitNumber pf m 3)
      (keeps_stringValue _ _)) (keeps_addDimensionToken hgo _ 2)

theorem keeps_sNumberPossibleExponentSignedOrUnitHyphen (pf : List Nat → ℚ)
    {go : M → Nat → M} (hgo : ∀ m cp, Keeps m (go m cp)) (m : M) (cp : Nat) :
    Keeps m (sNumberPossibleExponentSignedOrUnitHyphen pf go m cp) := by
  unfold sNumberPossibleExponentSignedOrUnitHyphen
  dsimp only
  split
  · exact keeps_untouched rfl rfl rfl rfl rfl
  · split
    · exact keeps_trans (keeps_trans (keeps_stringValue m _)
        (keeps_stringValue _ _)) (keeps_reconsumeCurrentCP hgo _ _ _)
    · exact keeps_trans (keeps_trans (keeps_trans (keeps_stringValue m _)
        (keeps_stringValue _ _)) (keeps_commitNumber pf _ 3))
        (keeps_addDimensionToken hgo _ 2)

theorem keeps_sNumberPossibleFraction (pf : List Nat → ℚ)
    {go : M → Nat → M} (hgo : ∀ m cp, Keeps m (go m cp)) (m : M) (cp : Nat) :
    Keeps m (sNumberPossibleFraction pf go m cp) := by
  unfold sNumberPossibleFraction
  split
  · exact keeps_untouched rfl rfl rfl rfl rfl
  · exact keeps_trans (keeps_commitNumber pf m 2)
      (keeps_addNumberToken hgo _ 2)

theorem keeps_sNumberPossibleUnitBackslash {go : M → Nat → M}
    (hgo : ∀ m cp, Keeps m (go m cp)) (m : M) (cp : Nat) :
    Keeps m (sNumberPossibleUnitBackslash go m cp) := by
  unfold sNumberPossibleUnitBackslash
  split
  · exact keeps_addNumberToken hgo m _
  · exact keeps_escapeTo hgo m _ cp

theorem keeps_sNumberPossibleUnitHyphen {go : M → Nat → M}
    (hgo : ∀ m cp, Keeps m (go m cp)) (m : M) (cp : Nat) :
    Keeps m (sNumberPossibleUnitHyphen go m cp) := by
  unfold sNumberPossibleUnitHyphen
  split
  · exact keeps_trans (keeps_stringValue m 0x2D)
      (keeps_trans (keeps_stringValue (stringValue m 0x2D) 0x2D)
        (keeps_untouched rfl rfl rfl rfl rfl))
  split
  · exact keeps_setLex m _
  split
  · exact keeps_trans (keeps_stringValue m 0x2D)
      (keeps_trans (keeps_stringValue (stringValue m 0x2D) cp)
        (keeps_untouched rfl rfl rfl rfl rfl))
  · exact keeps_addNumberToken hgo m _

theorem keeps_sNumberPossibleUnitHyphenBackslash {go : M → Nat → M}
    (hgo : ∀ m cp, Keeps m (go m cp)) (m : M) (cp : Nat) :
    Keeps m (sNumberPossibleUnitHyphenBackslash go m cp) := by
  unfold sNumberPossibleUnitHyphenBackslash
  split
  · exact keeps_addNumberToken hgo m _
  · exact keeps_trans (keeps_stringValue m _) (keeps_escapeTo hgo _ _ cp)

theorem keeps_sNumberUnit {go : M → Nat → M}
    (hgo : ∀ m cp, Keeps m (go m cp)) (m : M) (cp : Nat) :
    Keeps m (sNumberUnit go m cp) := by
  unfold sNumberUnit
  split
  · exact keeps_setLex m _
  split
  · exact keeps_stringValue m cp
  · exact keeps_addDimensionToken hgo m _

theorem keeps_sNumberUnitEscape {go : M → Nat → M}
    (hgo : ∀ m cp, Keeps m (go m cp)) (m : M) (cp : Nat) :
    Keeps m (sNumberUnitEscape go m cp) := by
  unfold sNumberUnitEscape
  split
  · exact keeps_addDimensionToken hgo m _
  · exact keeps_escapeTo hgo m _ cp

theorem keeps_sString {go : M → Nat → M}
    (hgo : ∀ m cp, Keeps m (go m cp)) (m : M) (cp : Nat) :
    Keeps m (sString go m cp) := by
  unfold sString
  dsimp only
  split
  · exact keeps_addStringValueTokenWithoutOffset m _
  split
  · split
    · exact keeps_fail m _ _
    · exact keeps_trans (keeps_trans (keeps_fail m _ _) (keeps_svTruncate _))
        (keeps_addStringValueTokenWithOffset_small hgo _ _ 1 (Or.inl rfl))
  split
  · exact keeps_setLex m _
  split
  · split
    · exact keeps_fail m _ _
    · exact keeps_trans (keeps_fail m _ _)
        (keeps_addStringValueTokenWithoutOffset _ _)
  · exact keeps_stringValue m cp

theorem keeps_sStringEscape {go : M → Nat → M}
    (hgo : ∀ m cp, Keeps m (go m cp)) (m : M) (cp : Nat) :
    Keeps m (sStringEscape go m cp) := by
  unfold sStringEscape
  dsimp only
  split
  · exact keeps_setLex m _
  split
  · split
    · exact keeps_fail m _ _
    · exact keeps_trans (keeps_fail m _ _)
        (keeps_addStringValueTokenWithoutOffset _ _)
  · exact keeps_escapeTo hgo m _ cp

theorem keeps_sUrl (m : M) (cp : Nat) : Keeps m (sUrl m cp) := by
  unfold sUrl
  dsimp only
  split
  · exact keeps_setLex m _
  split
  · exact keeps_trans (keeps_trans (keeps_fail m _ _) (keeps_svTruncate _))
      (keeps_setLex _ _)
  split
  · exact keeps_addStringValueTokenWithoutOffset m _
  split
  · exact keeps_setLex m _
  split
  · exact keeps_trans (keeps_trans (keeps_trans (keeps_trans
      (keeps_trans (keeps_fail m _ _) (keeps_svTruncate _)) (keeps_setLex _ _))
      (keeps_fail _ _ _)) (keeps_addStringValueTokenWithoutOffset _ _))
      (keeps_stringValue _ _)
  split
  · exact keeps_trans (keeps_trans (keeps_fail m _ _)
      (keeps_addStringValueTokenWithoutOffset _ _)) (keeps_stringValue _ _)
  · exact keeps_stringValue m cp

theorem keeps_sUrlAfterWhitespace (m : M) (cp : Nat) :
    Keeps m (sUrlAfterWhitespace m cp) := by
  unfold sUrlAfterWhitespace
  dsimp only
  split
  · exact keeps_refl m
  split
  · split
    · exact keeps_fail m _ _
    · exact keeps_trans (keeps_fail m _ _)
        (keeps_addStringValueTokenWithoutOffset _ _)
  split
  · exact keeps_addStringValueTokenWithoutOffset m _
  · exact keeps_trans (keeps_svTruncate m) (keeps_setLex _ _)

theorem keeps_sUrlEscape {go : M → Nat → M}
    (hgo : ∀ m cp, Keeps m (go m cp)) (m : M) (cp : Nat) :
    Keeps m (sUrlEscape go m cp) := by
  unfold sUrlEscape
  split
  · exact keeps_trans (keeps_svTruncate m) (keeps_setLex _ _)
  · exact keeps_escapeTo hgo m _ cp

theorem keeps_sWhitespace {go : M → Nat → M}
    (hgo : ∀ m cp, Keeps m (go m cp)) (m : M) (cp : Nat) :
    Keeps m (sWhitespace go m cp) := by
  unfold sWhitespace
  split
  · exact keeps_refl m
  · exact keeps_addWhitespaceToken hgo m cp

/-- Every dispatcher step preserves the frame facts, for every fuel. -/
theorem keeps_lexCP (pf : List Nat → ℚ) :
    ∀ (f : Nat) (m : M) (cp : Nat), Keeps m (lexCP pf f m cp) := by
  intro f
  induction f with
  | zero =>
    intro m cp
    exact keeps_untouched rfl rfl rfl rfl rfl
  | succ f ih =>
    intro m cp
    cases hm : m.lex
    all_goals simp only [lexCP, hm]
    case atKeyword => exact keeps_sAtKeyword ih m cp
    case atKeywordEscape => exact keeps_sAtKeywordEscape ih m cp
    case badURL => exact keeps_sBadURL m cp
    case badURLEscape => exact keeps_sBadURLEscape m cp
    case cdcOrIdent => exact keeps_sCdcOrIdent ih m cp
    case comment => exact keeps_sComment m cp
    case commentAfterAsterisk => exact keeps_sCommentAfterAsterisk m cp
    case delimOrAtKeyword => exact keeps_sDelimOrAtKeyword ih m cp
    case delimOrAtKeywordAfterBackslash =>
      exact keeps_sDelimOrAtKeywordAfterBackslash ih m cp
    case delimOrAtKeywordAfterHyphen =>
      exact keeps_sDelimOrAtKeywordAfterHyphen ih m cp
    case delimOrAtKeywordAfterHyphenBackslash =>
      exact keeps_sDelimOrAtKeywordAfterHyphenBackslash ih m cp
    case delimOrCDO => exact keeps_sDelimOrCDO ih m cp
    case delimOrCDOAfterExclamationPoint =>
      exact keeps_sDelimOrCDOAfterExclamationPoint ih m cp
    case delimOrCDOAfterExclamationPointHyphen =>
      exact keeps_sDelimOrCDOAfterExclamationPointHyphen ih m cp
    case delimOrComment => exact keeps_sDelimOrComment ih m cp
    case delimOrFractionalNumber => exact keeps_sDelimOrFractionalNumber ih m cp
    case delimOrHash => exact keeps_sDelimOrHash ih m cp
    case delimOrHashAfterBackslash =>
      exact keeps_sDelimOrHashAfterBackslash ih m cp
    case delimOrIdentAfterHyphenBackslash =>
      exact keeps_sDelimOrIdentAfterHyphenBackslash ih m cp
    case delimOrIdentInitialEscape =>
      exact keeps_sDelimOrIdentInitialEscape ih m cp
    case delimOrNegativeSignedNumberOrCDCOrIdent =>
      exact keeps_sDelimOrNegativeSignedNumberOrCDCOrIdent ih m cp
    case delimOrNegativeSignedNumberFractional =>
      exact keeps_sDelimOrNegativeSignedNumberFractional ih m cp
    case delimOrPositiveSignedNumber =>
      exact keeps_sDelimOrPositiveSignedNumber ih m cp
    case delimOrPositiveSignedNumberFractional =>
      exact keeps_sDelimOrPositiveSignedNumberFractional ih m cp
    case escape => exact keeps_sEscape m cp
    case escapeHex => exact keeps_sEscapeHex ih m cp
    case functionOrURL => exact keeps_sFunctionOrURL ih m cp
    case hash => exact keeps_sHash ih m cp
    case hashAfterHyphen => exact keeps_sHashAfterHyphen ih m cp
    case hashAfterHyphenBackslash =>
      exact keeps_sHashAfterHyphenBackslash ih m cp
    case hashEscape => exact keeps_sHashEscape ih m cp
    case ident => exact keeps_sIdent ih m cp
    case identEscape => exact keeps_sIdentEscape ih m cp
    case input => exact keeps_sInput ih m cp
    case number => exact keeps_sNumber pf ih m cp
    case numberExponent => exact keeps_sNumberExponent pf ih m cp
    case numberInDecimal => exact keeps_sNumberInDecimal pf ih m cp
    case numberPossibleExponentOrUnit =>
      exact keeps_sNumberPossibleExponentOrUnit pf ih m cp
    case numberPossibleExponentSignedOrUnitPlus =>
      exact keeps_sNumberPossibleExponentSignedOrUnitPlus pf ih m cp
    case numberPossibleExponentSignedOrUnitHyphen =>
      exact keeps_sNumberPossibleExponentSignedOrUnitHyphen pf ih m cp
    case numberPossibleFraction =>
      exact keeps_sNumberPossibleFraction pf ih m cp
    case numberPossibleUnitBackslash =>
      exact keeps_sNumberPossibleUnitBackslash ih m cp
    case numberPossibleUnitHyphen =>
      exact keeps_sNumberPossibleUnitHyphen ih m cp
    case numberPossibleUnitHyphenBackslash =>
      exact keeps_sNumberPossibleUnitHyphenBackslash ih m cp
    case numberUnit => exact keeps_sNumberUnit ih m cp
    case numberUnitEscape => exact keeps_sNumberUnitEscape ih m cp
    case string => exact keeps_sString ih m cp
    case stringEscape => exact keeps_sStringEscape ih m cp
    case url => exact keeps_sUrl m cp
    case urlAfterWhitespace => exact keeps_sUrlAfterWhitespace m cp
    case urlEscape => exact keeps_sUrlEscape ih m cp
    case whitespace => exact keeps_sWhitespace ih m cp

/-! Chunk-level frame facts: the write-loop wrapper of procCP touches the
source, positions and line, column counters, but the recover flag, the
error field (in recover mode), the append-only token list and the bound on
non-exempt re-feeds carry over from keeps_lexCP. -/

def CKeeps (m m2 : M) : Prop :=
  m2.recover = m.recover ∧
  (m.recover = true → m2.error = m.error) ∧
  (∃ t, m2.tokens = m.tokens ++ t) ∧
  m2.ghostOtherRefeedMax ≤ max m.ghostOtherRefeedMax 3

theorem ckeeps_refl (m : M) : CKeeps m m :=
  ⟨rfl, fun _ => rfl, ⟨[], by simp⟩, le_max_left _ _⟩

theorem ckeeps_of_keeps {m m2 : M} (h : Keeps m m2) : CKeeps m m2 :=
  ⟨h.1, h.2.2.1, h.2.2.2.1, h.2.2.2.2⟩

theorem ckeeps_trans {a b c : M} (h1 : CKeeps a b) (h2 : CKeeps b c) :
    CKeeps a c := by
  obtain ⟨r1, e1, ⟨t1, k1⟩, g1⟩ := h1
  obtain ⟨r2, e2, ⟨t2, k2⟩, g2⟩ := h2
  refine ⟨r2.trans r1, ?_, ⟨t1 ++ t2, by rw [k2, k1]; simp⟩, ?_⟩
  · intro h; rw [e2 (r1.trans h), e1 h]
  · calc c.ghostOtherRefeedMax ≤ max b.ghostOtherRefeedMax 3 := g2
      _ ≤ max (max a.ghostOtherRefeedMax 3) 3 :=
          max_le_max g1 (le_refl 3)
      _ = max a.ghostOtherRefeedMax 3 := by
          rw [max_assoc]; simp

theorem ckeeps_untouched {m m2 : M} (h1 : m2.recover = m.recover)
    (h2 : m2.error = m.error) (h3 : m2.tokens = m.tokens)
    (h4 : m2.ghostOtherRefeedMax = m.ghostOtherRefeedMax) : CKeeps m m2 :=
  ⟨h1, fun _ => h2, ⟨[], by rw [h3]; simp⟩,
    by rw [h4]; exact le_max_left _ _⟩

/-- A trailing line and column update does not disturb the chunk-level
frame facts (the four components are definitionally unchanged). -/
theorem ckeeps_post_linecol {m X : M} (u v : Nat) (h : CKeeps m X) :
    CKeeps m { X with line := u, column := v } :=
  ⟨h.1, h.2.1, h.2.2.1, h.2.2.2⟩

theorem ckeeps_post_col {m X : M} (v : Nat) (h : CKeeps m X) :
    CKeeps m { X with column := v } :=
  ⟨h.1, h.2.1, h.2.2.1, h.2.2.2⟩

theorem ckeeps_post_srcLen {m X : M} (u : Int) (h : CKeeps m X) :
    CKeeps m { X with sourceLength := u } :=
  ⟨h.1, h.2.1, h.2.2.1, h.2.2.2⟩

theorem ckeeps_procCP (pf : List Nat → ℚ) (f : Nat) (m : M) (cp0 : Nat) :
    CKeeps m (procCP pf f m cp0) := by
  unfold procCP
  dsimp only
  split
  · exact ckeeps_untouched rfl rfl rfl rfl
  · split
    · refine ckeeps_trans ?_ (ckeeps_of_keeps (keeps_lexCP pf f _ _))
      exact ckeeps_untouched rfl rfl rfl rfl
    split
    · refine ckeeps_post_linecol _ _ ?_
      refine ckeeps_trans ?_ (ckeeps_of_keeps (keeps_lexCP pf f _ _))
      exact ckeeps_untouched rfl rfl rfl rfl
    · refine ckeeps_post_col _ ?_
      refine ckeeps_trans ?_ (ckeeps_of_keeps (keeps_lexCP pf f _ _))
      exact ckeeps_untouched rfl rfl rfl rfl

theorem ckeeps_writeChunk (pf : List Nat → ℚ) (f : Nat) :
    ∀ (cps : List Nat) (m : M), CKeeps m (writeChunk pf f m cps)
  | [], m => ckeeps_refl m
  | cp :: rest, m => by
    unfold writeChunk
    dsimp only
    split
    · exact ckeeps_procCP pf f m cp
    · exact ckeeps_trans (ckeeps_procCP pf f m cp)
        (ckeeps_writeChunk pf f rest _)

theorem ckeeps_writeChunks (pf : List Nat → ℚ) (f : Nat) :
    ∀ (chunks : List (List Nat)) (m : M), CKeeps m (writeChunks pf f m chunks)
  | [], m => ckeeps_refl m
  | c :: cs, m =>
    ckeeps_trans (ckeeps_writeChunk pf f c m)
      (ckeeps_writeChunks pf f cs _)

theorem ckeeps_finish (pf : List Nat → ℚ) (f : Nat) (m : M) :
    CKeeps m (finish pf f m) := by
  unfold finish
  dsimp only
  split
  · exact ckeeps_refl m
  · refine ckeeps_post_srcLen _ ?_
    refine ckeeps_trans ?_ (ckeeps_of_keeps (keeps_lexCP pf f _ _))
    exact ckeeps_untouched rfl rfl rfl rfl

theorem ckeeps_tokenize (pf : List Nat → ℚ) (f : Nat) (r : Bool)
    (chunks : List (List Nat)) : CKeeps (init r) (tokenize pf f r chunks) :=
  ckeeps_trans (ckeeps_writeChunks pf f chunks (init r))
    (ckeeps_finish pf f _)

/-- C8 amended: over every input (any fuel, any recover setting, any chunk
partition), every reconsumption site other than the FUNCTION emission in
the URL disambiguation state re-feeds at most three stored code points: the
ghost maximum of non-exempt re-feeds never exceeds three. -/
theorem c8_amended (pf : List Nat → ℚ) (f : Nat) (r : Bool)
    (chunks : List (List Nat)) :
    (tokenize pf f r chunks).ghostOtherRefeedMax ≤ 3 := by
  have h := (ckeeps_tokenize pf f r chunks).2.2.2
  simpa [init] using h

theorem procCP_error_none {pf : List Nat → ℚ} {f : Nat} {m : M} {cp : Nat}
    (hr : m.recover = true) (he : m.error = none) :
    (procCP pf f m cp).error = none :=
  ((ckeeps_procCP pf f m cp).2.1 hr).trans he

theorem procCP_recover {pf : List Nat → ℚ} {f : Nat} {m : M} {cp : Nat} :
    (procCP pf f m cp).recover = m.recover :=
  (ckeeps_procCP pf f m cp).1

theorem writeChunk_error_none {pf : List Nat → ℚ} {f : Nat} {m : M}
    {cps : List Nat} (hr : m.recover = true) (he : m.error = none) :
    (writeChunk pf f m cps).error = none :=
  ((ckeeps_writeChunk pf f cps m).2.1 hr).trans he

theorem writeChunk_recover {pf : List Nat → ℚ} {f : Nat} {m : M}
    {cps : List Nat} : (writeChunk pf f m cps).recover = m.recover :=
  (ckeeps_writeChunk pf f cps m).1

/-- In recover mode the early-error exit of the write loop never fires, so
a write call is plain left-to-right processing and splits across list
append. -/
theorem writeChunk_append (pf : List Nat → ℚ) (f : Nat) :
    ∀ (a b : List Nat) (m : M), m.recover = true → m.error = none →
      writeChunk pf f m (a ++ b) = writeChunk pf f (writeChunk pf f m a) b
  | [], b, m, _, _ => by simp [writeChunk]
  | cp :: rest, b, m, hr, he => by
    have h1 : (procCP pf f m cp).error = none := procCP_error_none hr he
    have h2 : (procCP pf f m cp).recover = true := procCP_recover.trans hr
    simp only [List.cons_append, writeChunk, h1, Option.isSome_none,
      Bool.false_eq_true, if_false]
    exact writeChunk_append pf f rest b _ h2 h1

/-- Successive recover-mode write calls equal one write call on the
concatenation. -/
theorem writeChunks_eq_join (pf : List Nat → ℚ) (f : Nat) :
    ∀ (chunks : List (List Nat)) (m : M), m.recover = true →
      m.error = none →
      writeChunks pf f m chunks = writeChunk pf f m chunks.flatten
  | [], m, _, _ => by simp [writeChunks, writeChunk]
  | c :: cs, m, hr, he => by
    have h1 : (writeChunk pf f m c).error = none := writeChunk_error_none hr he
    have h2 : (writeChunk pf f m c).recover = true :=
      writeChunk_recover.trans hr
    simp only [writeChunks, List.flatten_cons]
    rw [writeChunk_append pf f c cs.flatten m hr he,
      writeChunks_eq_join pf f cs _ h2 h1]

/-- C9 amended: in recover mode, tokenizing any partition of the input into
successive write calls produces the identical machine (tokens, string
values, numeric buffers and all) as tokenizing the whole input in one
chunk, for every host parser and every fuel. -/
theorem c9_amended (pf : List Nat → ℚ) (f : Nat)
    (chunks : List (List Nat)) :
    tokenize pf f true chunks = tokenize pf f true [chunks.flatten] := by
  unfold tokenize
  rw [writeChunks_eq_join pf f chunks (init true) rfl rfl]
  rfl

/-! The hex-escape fragment: feeding a digit run and its terminator through
the dispatcher, for the amended C4 claim. -/

/-- Feed a list of code points one at a time, each with the same fuel. -/
def feedLex (pf : List Nat → ℚ) (fuel : Nat) (m : M) (cps : List Nat) : M :=
  cps.foldl (lexCP pf fuel) m

/-- The value of a hex-digit run as accumulated by the escape states. -/
def hexFold (digits : List Nat) : Nat :=
  digits.foldl (fun a d => a * 16 + toHexValue d) 0

/-- The machine after a completed hex escape whose digits were digits: the
normalized code point is appended to the string value and control returns
to the continuation state latched in lexAfterEscape. -/
def escDone (m : M) (digits : List Nat) : M :=
  { stringValue
      { m with escapeCP := hexFold digits, escapeCount := digits.length }
      (normalizeEscapeCP (hexFold digits)) with
    lex := m.lexAfterEscape }

theorem lexCP_escape_hexdigit (pf : List Nat → ℚ) (f : Nat) (m : M)
    (d : Nat) (hd : isHex d = true) (hlex : m.lex = .escape) :
    lexCP pf (f + 1) m d
      = { m with escapeCount := 1, escapeCP := toHexValue d,
                 lex := .escapeHex } := by
  simp only [lexCP, hlex]
  simp [sEscape, hd]

theorem lexCP_escapeHex_digit (pf : List Nat → ℚ) (f : Nat) (m : M)
    (d : Nat) (hd : isHex d = true) (hlex : m.lex = .escapeHex)
    (hc : ¬ m.escapeCount + 1 = 6) :
    lexCP pf (f + 1) m d
      = { m with escapeCP := m.escapeCP * 16 + toHexValue d,
                 escapeCount := m.escapeCount + 1 } := by
  simp only [lexCP, hlex]
  simp [sEscapeHex, hd, hc, hlex]

theorem lexCP_escapeHex_digit6 (pf : List Nat → ℚ) (f : Nat) (m : M)
    (d : Nat) (hd : isHex d = true) (hlex : m.lex = .escapeHex)
    (hc : m.escapeCount + 1 = 6) :
    lexCP pf (f + 1) m d
      = finishHexEscape
          { m with escapeCP := m.escapeCP * 16 + toHexValue d,
                   escapeCount := m.escapeCount + 1 } := by
  simp only [lexCP, hlex]
  simp [sEscapeHex, hd, hc, hlex]

theorem lexCP_escapeHex_term (pf : List Nat → ℚ) (f : Nat) (m : M)
    (t : Nat) (ht : isHex t = false) (hlex : m.lex = .escapeHex) :
    lexCP pf (f + 1) m t
      = if t = 0x09 ∨ t = 0x0A ∨ t = 0x20 then finishHexEscape m
        else lexCP pf f (bumpRefeed false 1 (finishHexEscape m)) t := by
  simp only [lexCP, hlex]
  simp [sEscapeHex, ht, hlex]

/-- A run of hex digits in the escape-hex state accumulates into the escape
register, as long as the count stays below six. -/
theorem escapeHex_run (pf : List Nat → ℚ) (f : Nat) :
    ∀ (ds : List Nat) (m : M), (∀ d ∈ ds, isHex d = true) →
      m.lex = .escapeHex → m.escapeCount + ds.length ≤ 5 →
      feedLex pf (f + 1) m ds
        = { m with
              escapeCP := ds.foldl (fun a d => a * 16 + toHexValue d)
                m.escapeCP,
              escapeCount := m.escapeCount + ds.length }
  | [], m, _, _, _ => by simp [feedLex]
  | d :: ds, m, hall, hlex, hbound => by
    have hd : isHex d = true := hall d (by simp)
    have hc : ¬ m.escapeCount + 1 = 6 := by
      simp only [List.length_cons] at hbound
      omega
    have step := escapeHex_run pf f ds
      { m with escapeCP := m.escapeCP * 16 + toHexValue d,
               escapeCount := m.escapeCount + 1 }
      (fun x hx => hall x (by simp [hx])) hlex
      (by show m.escapeCount + 1 + ds.length ≤ 5
          simp only [List.length_cons] at hbound; omega)
    simp only [feedLex, List.foldl_cons] at step ⊢
    rw [lexCP_escapeHex_digit pf f m d hd hlex hc, step]
    have hcount : m.escapeCount + 1 + ds.length
        = m.escapeCount + (d :: ds).length := by
      simp only [List.length_cons]; omega
    rw [hcount]

/-- C5 (amended): commitNumber latches exactly the host decimal parse of the
numeric source slice, and every numeric-token emission routes the latched
value by the is-float flag: floats verbatim into the float value buffer,
everything else through ToInt32 (wrap, not mere truncation) into the integer
value buffer, with the token slots recording the flag and the index into
exactly the designated buffer while the other buffer is untouched. -/
theorem c5_amended (pf : List Nat → ℚ) (m : M) (offset k : Nat) :
    (commitNumber pf m offset).numericTokenValue
        = pf (sliceSource m (badTokenStart m) (m.sourceLength - offset))
    ∧ ((addNumberTokenCore m k).tokens
        = m.tokens ++
            [NUMBER_TOKEN, u32ofInt (m.sourceLength - k),
              if m.numericTokenIsFloat then 1 else 0,
              if m.numericTokenIsFloat then m.floatValues.length
              else m.intValues.length])
    ∧ ((addNumberTokenCore m k).floatValues
        = if m.numericTokenIsFloat then
            m.floatValues ++ [m.numericTokenValue]
          else m.floatValues)
    ∧ ((addNumberTokenCore m k).intValues
        = if m.numericTokenIsFloat then m.intValues
          else m.intValues ++ [toInt32 m.numericTokenValue])
    ∧ (addPercentageToken m).tokens
        = m.tokens ++ [PERCENTAGE_TOKEN, u32ofInt m.sourceLength,
            m.floatValues.length, 0]
    ∧ (addPercentageToken m).floatValues
        = m.floatValues ++ [m.numericTokenValue]
    ∧ (addPercentageToken m).intValues = m.intValues
    ∧ ((addDimensionTokenCore m k).floatValues
        = if m.numericTokenIsFloat then
            m.floatValues ++ [m.numericTokenValue]
          else m.floatValues)
    ∧ ((addDimensionTokenCore m k).intValues
        = if m.numericTokenIsFloat then m.intValues
          else m.intValues ++ [toInt32 m.numericTokenValue])
    ∧ ((addDimensionTokenCore m k).stringValues
        = m.stringValues ++
            [if m.numericTokenIsFloat then 1 else 0,
              if m.numericTokenIsFloat then u32 m.floatValues.length
              else u32 m.intValues.length]) := by
  by_cases hf : m.numericTokenIsFloat = true
  all_goals
    simp [commitNumber, addNumberTokenCore, addPercentageToken,
      addDimensionTokenCore, hf]

/-- C4 (amended): a hex escape of one to six hex digits decodes to the
normalized hexadecimal value of its digits, appended to the string value.
With fewer than six digits, a whitespace terminator (tab, line feed, space)
is consumed and any other terminator is re-fed to the continuation state;
after exactly six digits the very next code point, whitespace included, is
processed as ordinary input by the continuation state, contrary to the
original claim that a single trailing whitespace code point is always
consumed as terminator. -/
theorem c4_amended (pf : List Nat → ℚ) (f : Nat) (m : M)
    (digits : List Nat) (t : Nat)
    (hne : digits ≠ []) (hlen : digits.length ≤ 6)
    (hhex : ∀ d ∈ digits, isHex d = true)
    (hlex : m.lex = .escape)
    (hterm : digits.length < 6 → isHex t = false) :
    feedLex pf (f + 1) m (digits ++ [t])
      = if digits.length = 6 then
          lexCP pf (f + 1) (escDone m digits) t
        else if t = 0x09 ∨ t = 0x0A ∨ t = 0x20 then escDone m digits
        else lexCP pf f (bumpRefeed false 1 (escDone m digits)) t := by
  obtain ⟨d1, ds, rfl⟩ : ∃ d1 ds, digits = d1 :: ds := by
    cases digits with
    | nil => exact absurd rfl hne
    | cons a l => exact ⟨a, l, rfl⟩
  have hd1 : isHex d1 = true := hhex d1 (by simp)
  have step1 : lexCP pf (f + 1) m d1
      = { m with escapeCount := 1, escapeCP := toHexValue d1,
                 lex := .escapeHex } :=
    lexCP_escape_hexdigit pf f m d1 hd1 hlex
  by_cases h6 : (d1 :: ds).length = 6
  · obtain ⟨ds2, d6, rfl⟩ : ∃ L b, ds = L ++ [b] := by
      rcases List.eq_nil_or_concat ds with h | ⟨L, b, h⟩
      · rw [h] at h6; simp at h6
      · exact ⟨L, b, by simpa [List.concat_eq_append] using h⟩
    have hlen4 : ds2.length = 4 := by
      simp only [List.length_cons, List.length_append,
        List.length_nil] at h6
      omega
    have hd6 : isHex d6 = true := hhex d6 (by simp)
    have run := escapeHex_run pf f ds2
      { m with escapeCount := 1, escapeCP := toHexValue d1,
               lex := .escapeHex }
      (fun x hx => hhex x (by simp [hx])) rfl
      (by show 1 + ds2.length ≤ 5; omega)
    have hM : feedLex pf (f + 1) (lexCP pf (f + 1) m d1) ds2
        = { m with
              escapeCount := 1 + ds2.length,
              escapeCP := List.foldl (fun a d => a * 16 + toHexValue d)
                (toHexValue d1) ds2,
              lex := .escapeHex } := by
      rw [step1, run]
    have expand : feedLex pf (f + 1) m ((d1 :: (ds2 ++ [d6])) ++ [t])
        = lexCP pf (f + 1)
            (lexCP pf (f + 1)
              (feedLex pf (f + 1) (lexCP pf (f + 1) m d1) ds2) d6) t := by
      simp [feedLex, List.foldl_append]
    have hfin6 : lexCP pf (f + 1)
        { m with
            escapeCount := 1 + ds2.length,
            escapeCP := List.foldl (fun a d => a * 16 + toHexValue d)
              (toHexValue d1) ds2,
            lex := .escapeHex } d6
        = escDone m (d1 :: (ds2 ++ [d6])) := by
      rw [lexCP_escapeHex_digit6 pf f
            { m with
                escapeCount := 1 + ds2.length,
                escapeCP := List.foldl (fun a d => a * 16 + toHexValue d)
                  (toHexValue d1) ds2,
                lex := .escapeHex } d6 hd6 rfl
            (by show 1 + ds2.length + 1 = 6; omega)]
      have hfold : hexFold (d1 :: (ds2 ++ [d6]))
          = List.foldl (fun a d => a * 16 + toHexValue d)
              (toHexValue d1) ds2 * 16 + toHexValue d6 := by
        simp [hexFold, List.foldl_append]
      have hcnt : (d1 :: (ds2 ++ [d6])).length = 1 + ds2.length + 1 := by
        simp only [List.length_cons, List.length_append,
          List.length_nil]
        omega
      simp only [escDone, finishHexEscape, stringValue]
      rw [hfold, hcnt]
    rw [expand, hM, hfin6, if_pos h6]
  · have hlt : (d1 :: ds).length < 6 := lt_of_le_of_ne hlen h6
    have ht : isHex t = false := hterm hlt
    have run := escapeHex_run pf f ds
      { m with escapeCount := 1, escapeCP := toHexValue d1,
               lex := .escapeHex }
      (fun x hx => hhex x (by simp [hx])) rfl
      (by show 1 + ds.length ≤ 5
          simp only [List.length_cons] at hlt; omega)
    have hM : feedLex pf (f + 1) (lexCP pf (f + 1) m d1) ds
        = { m with
              escapeCount := 1 + ds.length,
              escapeCP := List.foldl (fun a d => a * 16 + toHexValue d)
                (toHexValue d1) ds,
              lex := .escapeHex } := by
      rw [step1, run]
    have expand : feedLex pf (f + 1) m ((d1 :: ds) ++ [t])
        = lexCP pf (f + 1)
            (feedLex pf (f + 1) (lexCP pf (f + 1) m d1) ds) t := by
      simp [feedLex, List.foldl_append]
    have hfin : finishHexEscape
        { m with
            escapeCount := 1 + ds.length,
            escapeCP := List.foldl (fun a d => a * 16 + toHexValue d)
              (toHexValue d1) ds,
            lex := .escapeHex }
        = escDone m (d1 :: ds) := by
      have hfold : hexFold (d1 :: ds)
          = List.foldl (fun a d => a * 16 + toHexValue d)
              (toHexValue d1) ds := by
        simp [hexFold]
      have hcnt : (d1 :: ds).length = 1 + ds.length := by
        simp only [List.length_cons]
        omega
      simp only [escDone, finishHexEscape, stringValue]
      rw [hfold, hcnt]
    rw [expand, hM,
        lexCP_escapeHex_term pf f
          { m with
              escapeCount := 1 + ds.length,
              escapeCP := List.foldl (fun a d => a * 16 + toHexValue d)
                (toHexValue d1) ds,
              lex := .escapeHex } t ht rfl,
        if_neg h6, hfin]

/-- A concrete machine poised in the escape state, for the C4 witness. -/
def c4WitnessM : M :=
  { init true with lex := .escape, lexAfterEscape := .ident }

/-- C4 witness: the two-digit escape 41 terminated by a space, fed to a
machine in the escape state, consumes the space as terminator and returns
to the continuation state with A (0x41) appended to the string value. -/
theorem c4_amended_witness :
    feedLex (fun _ => (0 : ℚ)) 5 c4WitnessM ([0x34, 0x31] ++ [0x20])
      = escDone c4WitnessM [0x34, 0x31] := by
  have h := c4_amended (fun _ => (0 : ℚ)) 4 c4WitnessM [0x34, 0x31] 0x20
    (by decide) (by decide) (by decide) rfl (by decide)
  simpa using h

/-! The hash-flag invariant for the amended C7 claim: once the hash
disambiguation prefix has latched the is-id flag, the flag is carried
unchanged into the emitted HASH token's packed slot. -/

/-- The machine is inside the hash-token proper states (after the
disambiguation prefix has decided the flag): the hash body state, its
escape entry, or the shared escape states returning to the hash state. -/
def HashMode (m : M) : Prop :=
  m.lex = .hash ∨ m.lex = .hashEscape ∨
    ((m.lex = .escape ∨ m.lex = .escapeHex) ∧ m.lexAfterEscape = .hash)

/-- The first emitted token is a HASH token whose packed third slot carries
the flag bit b. -/
def FirstHashFlag (b : Bool) (m : M) : Prop :=
  ∃ e v tl, m.tokens = HASH_TOKEN :: e :: v :: tl ∧
    v % 2 = (if b then 1 else 0)

/-- Invariant: either still building the hash token with latched flag b and
no token emitted yet, or the hash token is already out with flag bit b. -/
def HashInv (b : Bool) (m : M) : Prop :=
  (HashMode m ∧ m.hashTokenIsID = b ∧ m.tokens = []) ∨ FirstHashFlag b m

/-- Master outcome: as HashInv, or the disambiguation emitted a DELIM token
instead (the first token is a DELIM and no hash token is produced). -/
def C7Inv (b : Bool) (m : M) : Prop :=
  HashInv b m ∨ ∃ tl, m.tokens = DELIM_TOKEN :: tl

theorem u32_parity (s : Nat) (b : Bool) :
    u32 (2 * s + (if b then 1 else 0)) % 2 = (if b then 1 else 0) := by
  cases b
  all_goals simp [u32]
  all_goals omega

theorem hashInv_untouched {b : Bool} {m m2 : M} (h : HashInv b m)
    (h1 : m2.lex = m.lex) (h2 : m2.lexAfterEscape = m.lexAfterEscape)
    (h3 : m2.hashTokenIsID = m.hashTokenIsID) (h4 : m2.tokens = m.tokens) :
    HashInv b m2 := by
  rcases h with ⟨hm, hf, ht⟩ | ⟨e, v, tl, ht, hv⟩
  · refine Or.inl ⟨?_, h3.trans hf, h4.trans ht⟩
    unfold HashMode at hm ⊢
    rw [h1, h2]
    exact hm
  · exact Or.inr ⟨e, v, tl, h4.trans ht, hv⟩

theorem firstHash_extend {b : Bool} {m m2 : M} (h : FirstHashFlag b m)
    (h4 : ∃ t, m2.tokens = m.tokens ++ t) : FirstHashFlag b m2 := by
  obtain ⟨e, v, tl, ht, hv⟩ := h
  obtain ⟨t, h4⟩ := h4
  exact ⟨e, v, tl ++ t, by rw [h4, ht]; simp, hv⟩

theorem c7Inv_untouched {b : Bool} {m m2 : M} (h : C7Inv b m)
    (h1 : m2.lex = m.lex) (h2 : m2.lexAfterEscape = m.lexAfterEscape)
    (h3 : m2.hashTokenIsID = m.hashTokenIsID) (h4 : m2.tokens = m.tokens) :
    C7Inv b m2 := by
  rcases h with h | ⟨tl, ht⟩
  · exact Or.inl (hashInv_untouched h h1 h2 h3 h4)
  · exact Or.inr ⟨tl, h4.trans ht⟩

theorem fail_fields (m : M) (a c : String) :
    (fail m a c).1.lex = m.lex ∧
    (fail m a c).1.lexAfterEscape = m.lexAfterEscape ∧
    (fail m a c).1.hashTokenIsID = m.hashTokenIsID ∧
    (fail m a c).1.tokens = m.tokens := by
  by_cases hr : m.recover = true
  all_goals simp [fail, hr]

/-- The token list addHashToken produces: the four HASH slots followed by
whatever the re-fed code point appends. -/
theorem addHashToken_tokens (pf : List Nat → ℚ) (f : Nat) (m : M)
    (off : Nat) :
    ∃ t, (addHashToken (lexCP pf f) m off).tokens
      = m.tokens ++ HASH_TOKEN :: u32ofInt (m.sourceLength - off) ::
          u32 (2 * m.stringValuesStart +
            (if m.hashTokenIsID then 1 else 0)) ::
          m.stringValues.length :: t := by
  obtain ⟨t, ht⟩ := (keeps_refeedBack (keeps_lexCP pf f)
    { m with lex := .input,
             tokens := m.tokens ++
               [HASH_TOKEN, u32ofInt (m.sourceLength - off),
                u32 (2 * m.stringValuesStart +
                  (if m.hashTokenIsID then 1 else 0)),
                m.stringValues.length],
             stringValuesStart := m.stringValues.length,
             hashTokenIsID := false } off).2.2.2.1
  exact ⟨t, ht.trans (by simp)⟩

/-- Same for the DELIM emission of the disambiguation states. -/
theorem addDelimTokenWithOffset_tokens (pf : List Nat → ℚ) (f : Nat)
    (m : M) (cp off : Nat) :
    ∃ t, (addDelimTokenWithOffset (lexCP pf f) m cp off).tokens
      = m.tokens ++ DELIM_TOKEN ::
          u32ofInt (m.sourceLength - off) :: u32 cp :: 0 :: t := by
  obtain ⟨t, ht⟩ := (keeps_refeedN (keeps_lexCP pf f)
    (refeedSwitchCount off)
    (bumpRefeed false (refeedSwitchCount off)
      (addDelimTokenWithoutOffset
        { m with sourceLength := m.sourceLength - off } cp))).2.2.2.1
  exact ⟨t, ht.trans (by simp [bumpRefeed, addDelimTokenWithoutOffset])⟩

theorem firstHash_addHashToken (pf : List Nat → ℚ) (f : Nat) (m : M)
    (b : Bool) (off : Nat) (hflag : m.hashTokenIsID = b)
    (htok : m.tokens = []) :
    FirstHashFlag b (addHashToken (lexCP pf f) m off) := by
  obtain ⟨t, ht⟩ := addHashToken_tokens pf f m off
  refine ⟨u32ofInt (m.sourceLength - off),
    u32 (2 * m.stringValuesStart + (if m.hashTokenIsID then 1 else 0)),
    m.stringValues.length :: t, ?_, ?_⟩
  · rw [ht, htok]
    simp
  · rw [hflag]
    exact u32_parity m.stringValuesStart b

/-- The hash invariant is preserved by every dispatcher step. -/
theorem hashInv_lexCP (pf : List Nat → ℚ) :
    ∀ (f : Nat) (m : M) (cp : Nat) (b : Bool),
      HashInv b m → HashInv b (lexCP pf f m cp)
  | 0, _, _, _, h => hashInv_untouched h rfl rfl rfl rfl
  | f + 1, m, cp, b, h => by
    rcases h with ⟨hmode, hflag, htok⟩ | hfirst
    · rcases hmode with hlex | hlex | ⟨hesc, hafter⟩
      · simp only [lexCP, hlex]
        by_cases h1 : isNameContinue cp = true
        · simp [sHash, h1]
          exact Or.inl ⟨Or.inl hlex, hflag, htok⟩
        · by_cases h2 : cp = 0x5C
          · simp [sHash, h1, h2]
            exact Or.inl ⟨Or.inr (Or.inl rfl), hflag, htok⟩
          · simp [sHash, h1, h2]
            exact Or.inr (firstHash_addHashToken pf f m b 1 hflag htok)
      · simp only [lexCP, hlex]
        by_cases h1 : cp = 0x0A
        · simp [sHashEscape, h1]
          exact Or.inr (firstHash_addHashToken pf f m b 2 hflag htok)
        · simp [sHashEscape, h1, escapeTo]
          exact hashInv_lexCP pf f _ cp b
            (Or.inl ⟨Or.inr (Or.inr ⟨Or.inl rfl, rfl⟩), hflag, htok⟩)
      · rcases hesc with hlex | hlex
        · simp only [lexCP, hlex]
          by_cases h1 : isHex cp = true
          · simp [sEscape, h1]
            exact Or.inl ⟨Or.inr (Or.inr ⟨Or.inr rfl, hafter⟩), hflag, htok⟩
          · by_cases h2 : cp = EOF_SENTINEL
            · simp [sEscape, h1, h2]
              obtain ⟨f1, f2, f3, f4⟩ := fail_fields m "css-syntax-3"
                "consume-escaped-code-point"
              exact Or.inl ⟨Or.inl (f2.trans hafter), f3.trans hflag,
                f4.trans htok⟩
            · simp [sEscape, h1, h2]
              exact Or.inl ⟨Or.inl hafter, hflag, htok⟩
        · simp only [lexCP, hlex]
          by_cases h1 : isHex cp = true
          · by_cases h2 : m.escapeCount + 1 = 6
            · simp [sEscapeHex, h1, h2]
              exact Or.inl ⟨Or.inl hafter, hflag, htok⟩
            · simp [sEscapeHex, h1, h2]
              exact Or.inl ⟨Or.inr (Or.inr ⟨Or.inr hlex, hafter⟩), hflag,
                htok⟩
          · by_cases h2 : cp = 0x09 ∨ cp = 0x0A ∨ cp = 0x20
            · simp [sEscapeHex, h1, h2]
              exact Or.inl ⟨Or.inl hafter, hflag, htok⟩
            · simp [sEscapeHex, h1, h2]
              exact hashInv_lexCP pf f _ cp b
                (Or.inl ⟨Or.inl hafter, hflag, htok⟩)
    · obtain ⟨t, ht⟩ := (keeps_lexCP pf (f + 1) m cp).2.2.2.1
      exact Or.inr (firstHash_extend hfirst ⟨t, ht⟩)

theorem c7Inv_lexCP (pf : List Nat → ℚ) (f : Nat) (m : M) (cp : Nat)
    (b : Bool) (h : C7Inv b m) : C7Inv b (lexCP pf f m cp) := by
  rcases h with h | ⟨tl, ht⟩
  · exact Or.inl (hashInv_lexCP pf f m cp b h)
  · obtain ⟨t, h2⟩ := (keeps_lexCP pf f m cp).2.2.2.1
    exact Or.inr ⟨tl ++ t, by rw [h2, ht]; simp⟩

theorem c7Inv_line (b : Bool) (m : M) (l c2 : Nat) (h : C7Inv b m) :
    C7Inv b { m with line := l, column := c2 } :=
  c7Inv_untouched h rfl rfl rfl rfl

theorem c7Inv_col (b : Bool) (m : M) (c2 : Nat) (h : C7Inv b m) :
    C7Inv b { m with column := c2 } :=
  c7Inv_untouched h rfl rfl rfl rfl

theorem c7Inv_lastCR (b : Bool) (m : M) (lc : Bool) (h : C7Inv b m) :
    C7Inv b { m with lastCPWasCR := lc } :=
  c7Inv_untouched h rfl rfl rfl rfl

theorem c7Inv_meta (b : Bool) (m : M) (lc : Bool) (src : Int → Nat)
    (sl : Int) (ps : List Nat) (h : C7Inv b m) :
    C7Inv b { m with lastCPWasCR := lc, source := src,
                     sourceLength := sl, positions := ps } :=
  c7Inv_untouched h rfl rfl rfl rfl

theorem c7Inv_src (b : Bool) (m : M) (src : Int → Nat) (sl : Int)
    (h : C7Inv b m) :
    C7Inv b { m with source := src, sourceLength := sl } :=
  c7Inv_untouched h rfl rfl rfl rfl

theorem c7Inv_srcLen (b : Bool) (m : M) (sl : Int) (h : C7Inv b m) :
    C7Inv b { m with sourceLength := sl } :=
  c7Inv_untouched h rfl rfl rfl rfl

theorem c7Inv_procCP (pf : List Nat → ℚ) (f : Nat) (m : M) (c : Nat)
    (b : Bool) (h : C7Inv b m) : C7Inv b (procCP pf f m c) := by
  unfold procCP
  split
  · exact c7Inv_lastCR b m false h
  · dsimp only
    split
    · exact c7Inv_lexCP pf f _ _ b (c7Inv_meta b m _ _ _ _ h)
    split
    · exact c7Inv_line b _ _ _
        (c7Inv_lexCP pf f _ _ b (c7Inv_meta b m _ _ _ _ h))
    · exact c7Inv_col b _ _
        (c7Inv_lexCP pf f _ _ b (c7Inv_meta b m _ _ _ _ h))

theorem c7Inv_writeChunk (pf : List Nat → ℚ) (f : Nat) :
    ∀ (cps : List Nat) (m : M) (b : Bool),
      C7Inv b m → C7Inv b (writeChunk pf f m cps)
  | [], _, _, h => h
  | c :: cs, m, b, h => by
    show C7Inv b (if (procCP pf f m c).error.isSome then procCP pf f m c
      else writeChunk pf f (procCP pf f m c) cs)
    split
    · exact c7Inv_procCP pf f m c b h
    · exact c7Inv_writeChunk pf f cs _ b (c7Inv_procCP pf f m c b h)

theorem c7Inv_finish (pf : List Nat → ℚ) (f : Nat) (m : M) (b : Bool)
    (h : C7Inv b m) : C7Inv b (finish pf f m) := by
  unfold finish
  split
  · exact h
  · dsimp only
    exact c7Inv_srcLen b _ _
      (c7Inv_lexCP pf f _ _ b (c7Inv_src b m _ _ h))

theorem c7Inv_carry (pf : List Nat → ℚ) (f : Nat) (cps : List Nat)
    (m : M) (b : Bool) (h : C7Inv b m) :
    C7Inv b (finish pf f (writeChunk pf f m cps)) :=
  c7Inv_finish pf f _ b (c7Inv_writeChunk pf f cps m b h)

theorem c7Inv_chunk_cons (pf : List Nat → ℚ) (f : Nat) (m : M) (c : Nat)
    (cs : List Nat) (b : Bool) (h : C7Inv b (procCP pf f m c)) :
    C7Inv b (finish pf f (writeChunk pf f m (c :: cs))) := by
  show C7Inv b (finish pf f
    (if (procCP pf f m c).error.isSome then procCP pf f m c
     else writeChunk pf f (procCP pf f m c) cs))
  split
  · exact c7Inv_finish pf f _ b h
  · exact c7Inv_carry pf f cs _ b h

/-! One-step lemmas for the hash disambiguation states, at the dispatcher
level (the code point argument is the already-normalized one). -/

theorem normCP_ne_CR (c : Nat) : normCP c ≠ 0x0D := by
  unfold normCP
  split
  · decide
  · split
    · decide
    · omega

theorem isNameStart_hyphen : isNameStart 0x2D = false := by decide

theorem isNameStart_bs : isNameStart 0x5C = false := by decide

theorem getD_cons_one (x y d : Nat) (l : List Nat) :
    (x :: y :: l).getD 1 d = y := rfl

theorem getD_cons_two (x y z d : Nat) (l : List Nat) :
    (x :: y :: z :: l).getD 2 d = z := rfl

theorem spec_nameStart (x : Nat) (l : List Nat) (h : isNameStart x = true) :
    hashIdFlagSpec (x :: l) = true := by
  simp [hashIdFlagSpec, h]

theorem spec_hyphen_start (y : Nat) (l : List Nat)
    (h : isNameStart y = true ∨ y = 0x2D) :
    hashIdFlagSpec (0x2D :: y :: l) = true := by
  rcases h with h | h
  all_goals simp [hashIdFlagSpec, getD_cons_one, isNameStart_hyphen, h]

theorem spec_hyphen_bs_nLF (z : Nat) (l : List Nat) (h : z ≠ 0x0A) :
    hashIdFlagSpec (0x2D :: 0x5C :: z :: l) = true := by
  simp [hashIdFlagSpec, getD_cons_one, getD_cons_two, isNameStart_hyphen,
    isNameStart_bs, h]

theorem spec_hyphen_bs_LF (l : List Nat) :
    hashIdFlagSpec (0x2D :: 0x5C :: 0x0A :: l) = false := by
  simp [hashIdFlagSpec, getD_cons_one, getD_cons_two, isNameStart_hyphen,
    isNameStart_bs]

theorem spec_hyphen_other (y : Nat) (l : List Nat)
    (h1 : isNameStart y = false) (h2 : y ≠ 0x2D) (h3 : y ≠ 0x5C) :
    hashIdFlagSpec (0x2D :: y :: l) = false := by
  simp [hashIdFlagSpec, getD_cons_one, isNameStart_hyphen, h1, h2, h3]

theorem spec_bs_nLF (y : Nat) (l : List Nat) (h : y ≠ 0x0A) :
    hashIdFlagSpec (0x5C :: y :: l) = true := by
  simp [hashIdFlagSpec, getD_cons_one, isNameStart_bs, h]

theorem spec_other (x : Nat) (l : List Nat) (h1 : isNameStart x = false)
    (h2 : x ≠ 0x2D) (h3 : x ≠ 0x5C) :
    hashIdFlagSpec (x :: l) = false := by
  simp [hashIdFlagSpec, h1, h2, h3]

theorem ld0 (pf : List Nat → ℚ) (f : Nat) (m : M)
    (hlex : m.lex = .input) :
    lexCP pf (f + 1) m 0x23 = { m with lex := .delimOrHash } := by
  simp only [lexCP, hlex]
  simp [sInput]

theorem ld1_nameStart (pf : List Nat → ℚ) (f : Nat) (m : M) (c : Nat)
    (hlex : m.lex = .delimOrHash) (hflag : m.hashTokenIsID = false)
    (htok : m.tokens = []) (hc : isNameStart c = true) :
    C7Inv true (lexCP pf (f + 1) m c) := by
  simp only [lexCP, hlex]
  simp [sDelimOrHash, hc]
  exact Or.inl (Or.inl ⟨Or.inl rfl, rfl, htok⟩)

theorem ld1_hyphen (pf : List Nat → ℚ) (f : Nat) (m : M)
    (hlex : m.lex = .delimOrHash) :
    lexCP pf (f + 1) m 0x2D
      = { stringValue m 0x2D with lex := .hashAfterHyphen } := by
  simp only [lexCP, hlex]
  simp [sDelimOrHash, isNameStart]

theorem ld1_backslash (pf : List Nat → ℚ) (f : Nat) (m : M)
    (hlex : m.lex = .delimOrHash) :
    lexCP pf (f + 1) m 0x5C
      = { m with lex := .delimOrHashAfterBackslash } := by
  simp only [lexCP, hlex]
  simp [sDelimOrHash, isNameStart]

theorem ld1_nameCont (pf : List Nat → ℚ) (f : Nat) (m : M) (c : Nat)
    (hlex : m.lex = .delimOrHash) (hflag : m.hashTokenIsID = false)
    (htok : m.tokens = [])
    (h1 : isNameStart c = false) (h2 : c ≠ 0x2D) (h3 : c ≠ 0x5C)
    (h4 : isNameContinue c = true) :
    C7Inv false (lexCP pf (f + 1) m c) := by
  simp only [lexCP, hlex]
  simp [sDelimOrHash, h1, h2, h3, h4]
  exact Or.inl (Or.inl ⟨Or.inl rfl, hflag, htok⟩)

theorem ld1_other (pf : List Nat → ℚ) (f : Nat) (m : M) (c : Nat)
    (hlex : m.lex = .delimOrHash) (htok : m.tokens = [])
    (h1 : isNameStart c = false) (h2 : c ≠ 0x2D) (h3 : c ≠ 0x5C)
    (h4 : isNameContinue c = false) :
    ∃ tl, (lexCP pf (f + 1) m c).tokens = DELIM_TOKEN :: tl := by
  simp only [lexCP, hlex]
  simp [sDelimOrHash, h1, h2, h3, h4]
  obtain ⟨t, ht⟩ := addDelimTokenWithOffset_tokens pf f m 0x23 1
  exact ⟨u32ofInt (m.sourceLength - 1) :: u32 0x23 :: 0 :: t,
    by rw [ht, htok]; simp⟩

theorem ld2_start (pf : List Nat → ℚ) (f : Nat) (m : M) (c : Nat)
    (hlex : m.lex = .hashAfterHyphen) (htok : m.tokens = [])
    (hc : isNameStart c = true ∨ c = 0x2D) :
    C7Inv true (lexCP pf (f + 1) m c) := by
  simp only [lexCP, hlex]
  rcases hc with hc | hc
  · simp [sHashAfterHyphen, hc]
    exact Or.inl (Or.inl ⟨Or.inl rfl, rfl, htok⟩)
  · simp [sHashAfterHyphen, hc]
    exact Or.inl (Or.inl ⟨Or.inl rfl, rfl, htok⟩)

theorem ld2_backslash (pf : List Nat → ℚ) (f : Nat) (m : M)
    (hlex : m.lex = .hashAfterHyphen) :
    lexCP pf (f + 1) m 0x5C
      = { m with lex := .hashAfterHyphenBackslash } := by
  simp only [lexCP, hlex]
  simp [sHashAfterHyphen, isNameStart]

theorem ld2_nameCont (pf : List Nat → ℚ) (f : Nat) (m : M) (c : Nat)
    (hlex : m.lex = .hashAfterHyphen) (hflag : m.hashTokenIsID = false)
    (htok : m.tokens = [])
    (h1 : isNameStart c = false) (h2 : c ≠ 0x2D) (h3 : c ≠ 0x5C)
    (h4 : isNameContinue c = true) :
    C7Inv false (lexCP pf (f + 1) m c) := by
  simp only [lexCP, hlex]
  simp [sHashAfterHyphen, h1, h2, h3, h4]
  exact Or.inl (Or.inl ⟨Or.inl rfl, hflag, htok⟩)

theorem ld2_other (pf : List Nat → ℚ) (f : Nat) (m : M) (c : Nat)
    (hlex : m.lex = .hashAfterHyphen) (hflag : m.hashTokenIsID = false)
    (htok : m.tokens = [])
    (h1 : isNameStart c = false) (h2 : c ≠ 0x2D) (h3 : c ≠ 0x5C)
    (h4 : isNameContinue c = false) :
    C7Inv false (lexCP pf (f + 1) m c) := by
  simp only [lexCP, hlex]
  simp [sHashAfterHyphen, h1, h2, h3, h4]
  exact Or.inl (Or.inr (firstHash_addHashToken pf f m false 1 hflag htok))

theorem ld3_lf (pf : List Nat → ℚ) (f : Nat) (m : M)
    (hlex : m.lex = .hashAfterHyphenBackslash)
    (hflag : m.hashTokenIsID = false) (htok : m.tokens = []) :
    C7Inv false (lexCP pf (f + 1) m 0x0A) := by
  simp only [lexCP, hlex]
  simp [sHashAfterHyphenBackslash]
  exact Or.inl (Or.inr (firstHash_addHashToken pf f m false 2 hflag htok))

theorem ld3_else (pf : List Nat → ℚ) (f : Nat) (m : M) (c : Nat)
    (hlex : m.lex = .hashAfterHyphenBackslash) (htok : m.tokens = [])
    (hc : c ≠ 0x0A) :
    C7Inv true (lexCP pf (f + 1) m c) := by
  simp only [lexCP, hlex]
  simp [sHashAfterHyphenBackslash, hc, escapeTo]
  exact Or.inl (hashInv_lexCP pf f _ c true
    (Or.inl ⟨Or.inr (Or.inr ⟨Or.inl rfl, rfl⟩), rfl, htok⟩))

theorem ld4_lf (pf : List Nat → ℚ) (f : Nat) (m : M)
    (hlex : m.lex = .delimOrHashAfterBackslash) (htok : m.tokens = []) :
    ∃ tl, (lexCP pf (f + 1) m 0x0A).tokens = DELIM_TOKEN :: tl := by
  simp only [lexCP, hlex]
  simp [sDelimOrHashAfterBackslash]
  obtain ⟨t, ht⟩ := addDelimTokenWithOffset_tokens pf f m 0x23 2
  exact ⟨u32ofInt (m.sourceLength - 2) :: u32 0x23 :: 0 :: t,
    by rw [ht, htok]; simp⟩

theorem ld4_else (pf : List Nat → ℚ) (f : Nat) (m : M) (c : Nat)
    (hlex : m.lex = .delimOrHashAfterBackslash) (htok : m.tokens = [])
    (hc : c ≠ 0x0A) :
    C7Inv true (lexCP pf (f + 1) m c) := by
  simp only [lexCP, hlex]
  simp [sDelimOrHashAfterBackslash, hc, escapeTo]
  exact Or.inl (hashInv_lexCP pf f _ c true
    (Or.inl ⟨Or.inr (Or.inr ⟨Or.inl rfl, rfl⟩), rfl, htok⟩))

/-- Relay a dispatcher-level transition fact through one write-loop
iteration. -/
theorem procCP_trans_step (pf : List Nat → ℚ) (f : Nat) (m : M) (c : Nat)
    (S : LexState) (hcr : m.lastCPWasCR = false) (herr : m.error = none)
    (hrec : m.recover = true)
    (hstep : ∀ m1 : M,
      m1.lex = m.lex → m1.hashTokenIsID = m.hashTokenIsID →
      m1.tokens = m.tokens → m1.error = m.error →
      m1.recover = m.recover → m1.lastCPWasCR = false →
      (lexCP pf f m1 (normCP c)).lex = S ∧
      (lexCP pf f m1 (normCP c)).hashTokenIsID = m.hashTokenIsID ∧
      (lexCP pf f m1 (normCP c)).tokens = m.tokens ∧
      (lexCP pf f m1 (normCP c)).error = m.error ∧
      (lexCP pf f m1 (normCP c)).recover = m.recover ∧
      (lexCP pf f m1 (normCP c)).lastCPWasCR = false) :
    (procCP pf f m c).lex = S ∧
    (procCP pf f m c).hashTokenIsID = m.hashTokenIsID ∧
    (procCP pf f m c).tokens = m.tokens ∧
    (procCP pf f m c).error = none ∧
    (procCP pf f m c).recover = true ∧
    (procCP pf f m c).lastCPWasCR = false := by
  unfold procCP
  rw [if_neg (by simp [hcr])]
  dsimp only
  obtain ⟨g1, g2, g3, g4, g5, g6⟩ := hstep
    { m with lastCPWasCR := decide (normCP c = 0x0D),
             source := setSource m (normCP c),
             sourceLength := m.sourceLength + 1,
             positions := m.positions ++ [m.line, m.column] }
    rfl rfl rfl rfl rfl (by simp [normCP_ne_CR c])
  split
  · exact ⟨g1, g2, g3, g4.trans herr, g5.trans hrec, g6⟩
  · split
    · exact ⟨g1, g2, g3, g4.trans herr, g5.trans hrec, g6⟩
    · exact ⟨g1, g2, g3, g4.trans herr, g5.trans hrec, g6⟩

/-- Relay a dispatcher-level invariant outcome through one write-loop
iteration. -/
theorem procCP_outcome_step (pf : List Nat → ℚ) (f : Nat) (m : M) (c : Nat)
    (b : Bool) (hcr : m.lastCPWasCR = false)
    (hstep : ∀ m1 : M,
      m1.lex = m.lex → m1.lexAfterEscape = m.lexAfterEscape →
      m1.hashTokenIsID = m.hashTokenIsID → m1.tokens = m.tokens →
      C7Inv b (lexCP pf f m1 (normCP c))) :
    C7Inv b (procCP pf f m c) := by
  unfold procCP
  rw [if_neg (by simp [hcr])]
  dsimp only
  have h := hstep
    { m with lastCPWasCR := decide (normCP c = 0x0D),
             source := setSource m (normCP c),
             sourceLength := m.sourceLength + 1,
             positions := m.positions ++ [m.line, m.column] }
    rfl rfl rfl rfl
  split
  · exact h
  · split
    · exact c7Inv_line b _ _ _ h
    · exact c7Inv_col b _ _ h

/-- Relay a dispatcher-level invariant outcome through the end-of-input
call. -/
theorem finish_outcome (pf : List Nat → ℚ) (f : Nat) (m : M) (b : Bool)
    (herr : m.error = none)
    (hstep : ∀ m1 : M,
      m1.lex = m.lex → m1.lexAfterEscape = m.lexAfterEscape →
      m1.hashTokenIsID = m.hashTokenIsID → m1.tokens = m.tokens →
      C7Inv b (lexCP pf f m1 EOF_SENTINEL)) :
    C7Inv b (finish pf f m) := by
  unfold finish
  rw [if_neg (by simp [herr])]
  dsimp only
  exact c7Inv_srcLen b _ _
    (hstep { m with source := setSource m EOF_SENTINEL,
                    sourceLength := m.sourceLength + 1 } rfl rfl rfl rfl)

theorem writeChunk_cons_noerr (pf : List Nat → ℚ) (f : Nat) (m : M)
    (c : Nat) (cs : List Nat) (h : (procCP pf f m c).error = none) :
    writeChunk pf f m (c :: cs) = writeChunk pf f (procCP pf f m c) cs := by
  show (if (procCP pf f m c).error.isSome then procCP pf f m c
    else writeChunk pf f (procCP pf f m c) cs) = _
  rw [h]
  simp

/-- The hash-flag outcome over the whole pipeline: tokenizing an input that
begins with the hash sign yields either no token, a leading DELIM token, or
a leading HASH token whose flag bit equals the disambiguation predicate of
the normalized stream after the hash sign. -/
theorem c7_master (pf : List Nat → ℚ) (f : Nat) (rest : List Nat) :
    C7Inv (hashIdFlagSpec (rest.map normCP ++ [EOF_SENTINEL]))
      (tokenize pf (f + 1) true [0x23 :: rest]) := by
  show C7Inv _ (finish pf (f + 1)
    (writeChunk pf (f + 1) (init true) (0x23 :: rest)))
  obtain ⟨hA1, hA2, hA3, hA4, hA5, hA6⟩ :=
    procCP_trans_step pf (f + 1) (init true) 0x23 .delimOrHash rfl rfl rfl
      (fun m1 e1 e2 e3 e4 e5 e6 => by
        rw [show normCP 0x23 = 0x23 from rfl, ld0 pf f m1 e1]
        exact ⟨rfl, e2, e3, e4, e5, e6⟩)
  rw [writeChunk_cons_noerr pf (f + 1) (init true) 0x23 rest hA4]
  cases rest with
  | nil =>
    rw [show hashIdFlagSpec (List.map normCP [] ++ [EOF_SENTINEL]) = true
      from by decide]
    exact finish_outcome pf (f + 1) _ true hA4
      (fun m1 e1 e2 e3 e4 =>
        ld1_nameStart pf f m1 EOF_SENTINEL (e1.trans hA1) (e3.trans hA2)
          (e4.trans hA3) (by decide))
  | cons c1 rest1 =>
    by_cases h1 : isNameStart (normCP c1) = true
    · rw [show hashIdFlagSpec (List.map normCP (c1 :: rest1)
          ++ [EOF_SENTINEL]) = true from by
        simp only [List.map_cons, List.cons_append]
        exact spec_nameStart (normCP c1) _ h1]
      exact c7Inv_chunk_cons pf (f + 1) _ c1 rest1 true
        (procCP_outcome_step pf (f + 1) _ c1 true hA6
          (fun m1 e1 e2 e3 e4 =>
            ld1_nameStart pf f m1 (normCP c1) (e1.trans hA1)
              (e3.trans hA2) (e4.trans hA3) h1))
    · have h1' : isNameStart (normCP c1) = false := by simpa using h1
      by_cases h2 : normCP c1 = 0x2D
      · obtain ⟨hB1, hB2, hB3, hB4, hB5, hB6⟩ :=
          procCP_trans_step pf (f + 1) _ c1 .hashAfterHyphen hA6 hA4 hA5
            (fun m1 e1 e2 e3 e4 e5 e6 => by
              rw [h2, ld1_hyphen pf f m1 (e1.trans hA1)]
              exact ⟨rfl, e2, e3, e4, e5, e6⟩)
        rw [writeChunk_cons_noerr pf (f + 1) _ c1 rest1 hB4]
        cases rest1 with
        | nil =>
          rw [show hashIdFlagSpec (List.map normCP [c1] ++ [EOF_SENTINEL])
              = true from by
            simp only [List.map_cons, List.map_nil, List.nil_append,
              List.cons_append, h2]
            exact spec_hyphen_start EOF_SENTINEL [] (Or.inl (by decide))]
          exact finish_outcome pf (f + 1) _ true hB4
            (fun m1 e1 e2 e3 e4 =>
              ld2_start pf f m1 EOF_SENTINEL (e1.trans hB1)
                (e4.trans (hB3.trans hA3)) (Or.inl (by decide)))
        | cons c2 rest2 =>
          by_cases h3 : isNameStart (normCP c2) = true ∨ normCP c2 = 0x2D
          · rw [show hashIdFlagSpec (List.map normCP (c1 :: c2 :: rest2)
                ++ [EOF_SENTINEL]) = true from by
              simp only [List.map_cons, List.cons_append, h2]
              exact spec_hyphen_start (normCP c2) _ h3]
            exact c7Inv_chunk_cons pf (f + 1) _ c2 rest2 true
              (procCP_outcome_step pf (f + 1) _ c2 true hB6
                (fun m1 e1 e2 e3 e4 =>
                  ld2_start pf f m1 (normCP c2) (e1.trans hB1)
                    (e4.trans (hB3.trans hA3)) h3))
          · have h3' : isNameStart (normCP c2) = false := by
              simpa using (not_or.mp h3).1
            have h3b : normCP c2 ≠ 0x2D := (not_or.mp h3).2
            by_cases h5 : normCP c2 = 0x5C
            · obtain ⟨hC1, hC2, hC3, hC4, hC5, hC6⟩ :=
                procCP_trans_step pf (f + 1) _ c2 .hashAfterHyphenBackslash
                  hB6 hB4 hB5
                  (fun m1 e1 e2 e3 e4 e5 e6 => by
                    rw [h5, ld2_backslash pf f m1 (e1.trans hB1)]
                    exact ⟨rfl, e2, e3, e4, e5, e6⟩)
              rw [writeChunk_cons_noerr pf (f + 1) _ c2 rest2 hC4]
              cases rest2 with
              | nil =>
                rw [show hashIdFlagSpec (List.map normCP [c1, c2]
                    ++ [EOF_SENTINEL]) = true from by
                  simp only [List.map_cons, List.map_nil, List.nil_append,
                    List.cons_append, h2, h5]
                  exact spec_hyphen_bs_nLF EOF_SENTINEL [] (by decide)]
                exact finish_outcome pf (f + 1) _ true hC4
                  (fun m1 e1 e2 e3 e4 =>
                    ld3_else pf f m1 EOF_SENTINEL (e1.trans hC1)
                      (e4.trans (hC3.trans (hB3.trans hA3))) (by decide))
              | cons c3 rest3 =>
                by_cases h6 : normCP c3 = 0x0A
                · rw [show hashIdFlagSpec
                      (List.map normCP (c1 :: c2 :: c3 :: rest3)
                        ++ [EOF_SENTINEL]) = false from by
                    simp only [List.map_cons, List.cons_append, h2, h5, h6]
                    exact spec_hyphen_bs_LF _]
                  exact c7Inv_chunk_cons pf (f + 1) _ c3 rest3 false
                    (procCP_outcome_step pf (f + 1) _ c3 false hC6
                      (fun m1 e1 e2 e3 e4 => by
                        rw [h6]
                        exact ld3_lf pf f m1 (e1.trans hC1)
                          (e3.trans (hC2.trans (hB2.trans hA2)))
                          (e4.trans (hC3.trans (hB3.trans hA3)))))
                · rw [show hashIdFlagSpec
                      (List.map normCP (c1 :: c2 :: c3 :: rest3)
                        ++ [EOF_SENTINEL]) = true from by
                    simp only [List.map_cons, List.cons_append, h2, h5]
                    exact spec_hyphen_bs_nLF (normCP c3) _ h6]
                  exact c7Inv_chunk_cons pf (f + 1) _ c3 rest3 true
                    (procCP_outcome_step pf (f + 1) _ c3 true hC6
                      (fun m1 e1 e2 e3 e4 =>
                        ld3_else pf f m1 (normCP c3) (e1.trans hC1)
                          (e4.trans (hC3.trans (hB3.trans hA3))) h6))
            · rw [show hashIdFlagSpec (List.map normCP (c1 :: c2 :: rest2)
                  ++ [EOF_SENTINEL]) = false from by
                simp only [List.map_cons, List.cons_append, h2]
                exact spec_hyphen_other (normCP c2) _ h3' h3b h5]
              by_cases h4 : isNameContinue (normCP c2) = true
              · exact c7Inv_chunk_cons pf (f + 1) _ c2 rest2 false
                  (procCP_outcome_step pf (f + 1) _ c2 false hB6
                    (fun m1 e1 e2 e3 e4 =>
                      ld2_nameCont pf f m1 (normCP c2) (e1.trans hB1)
                        (e3.trans (hB2.trans hA2))
                        (e4.trans (hB3.trans hA3)) h3' h3b h5 h4))
              · have h4' : isNameContinue (normCP c2) = false := by
                  simpa using h4
                exact c7Inv_chunk_cons pf (f + 1) _ c2 rest2 false
                  (procCP_outcome_step pf (f + 1) _ c2 false hB6
                    (fun m1 e1 e2 e3 e4 =>
                      ld2_other pf f m1 (normCP c2) (e1.trans hB1)
                        (e3.trans (hB2.trans hA2))
                        (e4.trans (hB3.trans hA3)) h3' h3b h5 h4'))
      · by_cases h2b : normCP c1 = 0x5C
        · obtain ⟨hB1, hB2, hB3, hB4, hB5, hB6⟩ :=
            procCP_trans_step pf (f + 1) _ c1 .delimOrHashAfterBackslash
              hA6 hA4 hA5
              (fun m1 e1 e2 e3 e4 e5 e6 => by
                rw [h2b, ld1_backslash pf f m1 (e1.trans hA1)]
                exact ⟨rfl, e2, e3, e4, e5, e6⟩)
          rw [writeChunk_cons_noerr pf (f + 1) _ c1 rest1 hB4]
          cases rest1 with
          | nil =>
            rw [show hashIdFlagSpec (List.map normCP [c1] ++ [EOF_SENTINEL])
                = true from by
              simp only [List.map_cons, List.map_nil, List.nil_append,
                List.cons_append, h2b]
              exact spec_bs_nLF EOF_SENTINEL [] (by decide)]
            exact finish_outcome pf (f + 1) _ true hB4
              (fun m1 e1 e2 e3 e4 =>
                ld4_else pf f m1 EOF_SENTINEL (e1.trans hB1)
                  (e4.trans (hB3.trans hA3)) (by decide))
          | cons c2 rest2 =>
            by_cases h3 : normCP c2 = 0x0A
            · exact c7Inv_chunk_cons pf (f + 1) _ c2 rest2 _
                (procCP_outcome_step pf (f + 1) _ c2 _ hB6
                  (fun m1 e1 e2 e3 e4 => by
                    rw [h3]
                    obtain ⟨tl2, htl⟩ := ld4_lf pf f m1 (e1.trans hB1)
                      (e4.trans (hB3.trans hA3))
                    exact Or.inr ⟨tl2, htl⟩))
            · rw [show hashIdFlagSpec (List.map normCP (c1 :: c2 :: rest2)
                  ++ [EOF_SENTINEL]) = true from by
                simp only [List.map_cons, List.cons_append, h2b]
                exact spec_bs_nLF (normCP c2) _ h3]
              exact c7Inv_chunk_cons pf (f + 1) _ c2 rest2 true
                (procCP_outcome_step pf (f + 1) _ c2 true hB6
                  (fun m1 e1 e2 e3 e4 =>
                    ld4_else pf f m1 (normCP c2) (e1.trans hB1)
                      (e4.trans (hB3.trans hA3)) h3))
        · by_cases h4 : isNameContinue (normCP c1) = true
          · rw [show hashIdFlagSpec (List.map normCP (c1 :: rest1)
                ++ [EOF_SENTINEL]) = false from by
              simp only [List.map_cons, List.cons_append]
              exact spec_other (normCP c1) _ h1' h2 h2b]
            exact c7Inv_chunk_cons pf (f + 1) _ c1 rest1 false
              (procCP_outcome_step pf (f + 1) _ c1 false hA6
                (fun m1 e1 e2 e3 e4 =>
                  ld1_nameCont pf f m1 (normCP c1) (e1.trans hA1)
                    (e3.trans hA2) (e4.trans hA3) h1' h2 h2b h4))
          · have h4' : isNameContinue (normCP c1) = false := by
              simpa using h4
            exact c7Inv_chunk_cons pf (f + 1) _ c1 rest1 _
              (procCP_outcome_step pf (f + 1) _ c1 _ hA6
                (fun m1 e1 e2 e3 e4 => by
                  obtain ⟨tl2, htl⟩ := ld1_other pf f m1 (normCP c1)
                    (e1.trans hA1) (e4.trans hA3) h1' h2 h2b h4'
                  exact Or.inr ⟨tl2, htl⟩))

/-- C7 (amended): when tokenizing an input that begins with the hash sign,
if the first emitted token is a HASH token then its is-id flag bit is 1
exactly when the normalized code points after the hash sign would start an
identifier in the sense the disambiguation states implement: a name-start
code point; or a hyphen followed by a name-start code point, another
hyphen, or a backslash not immediately followed by a line feed; or a
backslash not immediately followed by a line feed. -/
theorem c7_amended (pf : List Nat → ℚ) (f : Nat) (rest : List Nat)
    (e v : Nat) (tl : List Nat)
    (htk : (tokenize pf (f + 1) true [0x23 :: rest]).tokens
      = HASH_TOKEN :: e :: v :: tl) :
    v % 2 = 1 ↔ hashIdFlagSpec (rest.map normCP ++ [EOF_SENTINEL]) = true := by
  have master := c7_master pf f rest
  rcases master with (⟨hm, hf2, ht⟩ | ⟨e2, v2, tl2, ht, hv⟩) | ⟨tl2, ht⟩
  · rw [htk] at ht
    exact absurd ht (by simp)
  · rw [htk] at ht
    obtain ⟨he, hvv, htl⟩ : e = e2 ∧ v = v2 ∧ tl = tl2 := by
      simpa using ht
    subst hvv
    cases hb : hashIdFlagSpec (rest.map normCP ++ [EOF_SENTINEL]) with
    | false =>
      rw [hb] at hv
      simp only [if_neg Bool.false_ne_true] at hv
      simp [hv]
    | true =>
      rw [hb] at hv
      simp only [if_pos rfl] at hv
      simp [hv]
  · rw [htk] at ht
    have hd : HASH_TOKEN = DELIM_TOKEN := by
      injection ht
    exact absurd hd (by decide)

/-- C7 witness: the input hash a semicolon produces a HASH token with flag
bit 1, and the disambiguation predicate agrees. -/
theorem c7_amended_witness :
    (tokenize decParse 32 true [[0x23, 97, 59]]).tokens
        = HASH_TOKEN :: 2 :: 1 :: [1, 20, 3, 0, 0] ∧
    (1 % 2 = 1 ↔
      hashIdFlagSpec ([97, 59].map normCP ++ [EOF_SENTINEL]) = true) :=
  ⟨by decide,
   c7_amended decParse 31 [97, 59] 2 1 [1, 20, 3, 0, 0] (by decide)⟩

/-- C10 witness: the theorem applied to the freshly constructed recovering
machine. -/
theorem c10_fail_recover_frame_witness :
    (init true).recover = true ∧
    fail (init true) "css-syntax-3" "consume-comment"
      = ({ init true with
             errors := (init true).errors ++
               [errRecOf (init true) "css-syntax-3" "consume-comment"] },
         false) :=
  ⟨rfl, c10_fail_recover_frame (init true) "css-syntax-3" "consume-comment"
    rfl⟩

end CSSParser


